import Mathlib

/-!
Verification of the permissions schema registry (`core/permission.py`) and the
plugin loader (`core/plugin/loader.py`).

Python dictionaries are embedded as association lists with insertion-order
semantics: assignment updates an existing key in place and appends a fresh key
at the end; lookup returns the first (hence, with unique keys, the only)
binding.  Strings are Lean strings; `str.lower` is embedded character-wise.
-/

/-- Lookup in an insertion-ordered dictionary (first binding wins). -/
def dlookup {α : Type} : List (String × α) → String → Option α
  | [], _ => none
  | (k', v') :: rest, k => if k' = k then some v' else dlookup rest k

/-- Python dict assignment `d[k] = v`: update in place, else append at the end. -/
def dinsert {α : Type} : List (String × α) → String → α → List (String × α)
  | [], k, v => [(k, v)]
  | (k', v') :: rest, k, v =>
    if k' = k then (k, v) :: rest else (k', v') :: dinsert rest k v

/-- Python dict deletion `del d[k]` / `d.pop(k, None)`: drop the binding of `k`. -/
def derase {α : Type} : List (String × α) → String → List (String × α)
  | [], _ => []
  | (k', v') :: rest, k => if k' = k then rest else (k', v') :: derase rest k

/-- The keys of a dictionary, in insertion order. -/
def dkeys {α : Type} (d : List (String × α)) : List String := d.map (·.1)

/-- Embedding of Python `str.lower()` (character-wise lowercasing). -/
def pyLower (s : String) : String := ⟨s.data.map Char.toLower⟩

/-- Embedding of `":".join(parts)`. -/
def joinColon : List String → String
  | [] => ""
  | [s] => s
  | s :: rest => s ++ ":" ++ joinColon rest

/-- Embedding of `str.strip(":")` on a character list: drop leading and
trailing `':'` characters. -/
def stripColonChars (l : List Char) : List Char :=
  ((l.dropWhile (· = ':')).reverse.dropWhile (· = ':')).reverse

/-- Embedding of `_normalize_prefix`: `prefix.replace("\\", "/").replace("/", ":")
.strip(":").lower()`.  Single-character `str.replace` is a character-wise map. -/
def normalizePfx (p : String) : String :=
  pyLower ⟨stripColonChars ((p.data.map fun c => if c = '\\' then '/' else c).map
    fun c => if c = '/' then ':' else c)⟩

/-- Python truthiness of the `normalized_prefix` optional string:
`None` and `""` are falsy. -/
def truthyOpt : Option String → Bool
  | none => false
  | some s => s ≠ ""

/-- Embedding of `_build_transformed_name`: `[prefix:]class_name:field_name`,
lowercased; the prefix part is included only when truthy. -/
def buildTransformedName (pfx : Option String) (className fieldName : String) : String :=
  pyLower (joinColon
    ((match pfx with
      | some q => if q ≠ "" then [q] else []
      | none => []) ++ [className, fieldName]))

/-- A Python runtime value (the value universe used for field defaults). -/
inductive PyVal : Type
  | vint (n : Int)
  | vstr (s : String)
  | vbool (b : Bool)
  | vnone
deriving DecidableEq, Repr

/-- Embedding of a pydantic `FieldInfo`: a type descriptor and an optional
default (`none` embeds `PydanticUndefined`, i.e. a required field). -/
structure FieldInfo where
  annot : String
  default : Option PyVal
deriving DecidableEq, Repr

/-- Embedding of a pydantic model class: its `__name__` and its ordered
`model_fields` table. -/
structure PModel where
  name : String
  model_fields : List (String × FieldInfo)
deriving DecidableEq, Repr

/-- Embedding of `_FieldEntry`. -/
structure FieldEntry where
  annot : String
  field_info : FieldInfo
  priority : Nat
  source_plugin : String
deriving DecidableEq, Repr

/-- Embedding of `_PluginRecord` (a registered schema fragment).  The source
field `prefix` is called `pfx` here. -/
structure PRecord where
  model_class : PModel
  pfx : Option String
  name_map : List (String × String)
deriving DecidableEq, Repr

/-- Embedding of the Python exception raised by a registry operation. -/
inductive PyErr : Type
  | typeErr (msg : String)
  | valueErr (msg : String)
  | keyErr (msg : String)
  | runtimeErr (msg : String)
  | validationErr (msg : String)
deriving DecidableEq, Repr

/-- An argument passed where a pydantic model class is expected: either a model
class or some other Python object (rejected by `_is_pydantic_model`). -/
inductive PyObj : Type
  | mdl (m : PModel)
  | nonModel (descr : String)
deriving DecidableEq, Repr

/-- The observable state of a `PermissionsRegistry`: the plugin table, the flat
field table, the collision table, the composed model (its `create_model` field
definitions; `none` embeds `self._model is None`), the dirty flag, and a count
of change-notification broadcasts fired so far (each `_notify_change` call is
one broadcast event). -/
structure Registry where
  plugins : List (String × PRecord)
  fields : List (String × FieldEntry)
  collisions : List (String × String)
  model : Option (List (String × (String × FieldInfo)))
  dirty : Bool
  notifies : Nat
deriving DecidableEq, Repr

/-- A freshly constructed `PermissionsRegistry`. -/
def freshRegistry : Registry :=
  { plugins := [], fields := [], collisions := [], model := none,
    dirty := false, notifies := 0 }

/-- State threaded through `_add_fields`: the flat field table, the collision
table, and the fragment record's `name_map`. -/
structure AddSt where
  fields : List (String × FieldEntry)
  collisions : List (String × String)
  name_map : List (String × String)
deriving DecidableEq, Repr

/-- One iteration of the `_add_fields` loop body for the field
`(fieldName, fi)` of `model`: build the transformed name, record it in the
fragment's name map, then insert the new `FieldEntry`, resolving a collision by
priority (`>` and `=` both overwrite; `<` keeps the existing entry). -/
def addOneField (modelName : String) (pfx : Option String) (pluginName : String)
    (priority : Nat) (st : AddSt) (fld : String × FieldInfo) : AddSt :=
  let transformed := buildTransformedName pfx modelName fld.1
  let nm := dinsert st.name_map fld.1 transformed
  let entry : FieldEntry :=
    { annot := fld.2.annot, field_info := fld.2, priority := priority,
      source_plugin := pluginName }
  match dlookup st.fields transformed with
  | none =>
    { fields := dinsert st.fields transformed entry, collisions := st.collisions,
      name_map := nm }
  | some existing =>
    if entry.priority > existing.priority then
      { fields := dinsert st.fields transformed entry,
        collisions := dinsert st.collisions transformed pluginName, name_map := nm }
    else if entry.priority = existing.priority then
      { fields := dinsert st.fields transformed entry,
        collisions := dinsert st.collisions transformed pluginName, name_map := nm }
    else
      { fields := st.fields,
        collisions := dinsert st.collisions transformed existing.source_plugin,
        name_map := nm }

/-- Embedding of `_add_fields`: fold the loop body over the model's fields. -/
def addFields (m : PModel) (pfx : Option String) (pluginName : String)
    (priority : Nat) (st : AddSt) : AddSt :=
  m.model_fields.foldl (addOneField m.name pfx pluginName priority) st

/-- Embedding of `_rebuild`: skip when clean; with no fields the model becomes
`None`; otherwise the model is created from the field definitions. -/
def rebuildR (r : Registry) : Registry :=
  if r.dirty = false then r
  else if r.fields = [] then { r with model := none, dirty := false }
  else
    { r with
      model := some (r.fields.map fun p => (p.1, (p.2.annot, p.2.field_info))),
      dirty := false }

/-- Embedding of `_notify_change`: one broadcast to the listeners (listener
exceptions are swallowed, so the registry state is otherwise unchanged). -/
def notifyChange (r : Registry) : Registry := { r with notifies := r.notifies + 1 }

/-- Embedding of `_register_model`.  Returns the resulting state and the raised
exception, if any (`TypeError` for a non-model argument, `ValueError` for an
already-registered plugin id). -/
def registerModel (obj : PyObj) (pfx0 : Option String) (rebuild : Bool)
    (r : Registry) : Registry × Option PyErr :=
  match obj with
  | PyObj.nonModel d =>
    (r, some (PyErr.typeErr ("expected a pydantic BaseModel class, got: " ++ d)))
  | PyObj.mdl m =>
    let pluginName := pyLower m.name
    if (dlookup r.plugins pluginName).isSome then
      (r, some (PyErr.valueErr ("plugin already registered: " ++ pluginName)))
    else
      let normPfx : Option String :=
        match pfx0 with
        | none => none
        | some p => if p = "" then none else some (normalizePfx p)
      let priority : Nat := if truthyOpt normPfx then 2 else 1
      let st := addFields m normPfx pluginName priority
        { fields := r.fields, collisions := r.collisions, name_map := [] }
      let rec0 : PRecord := { model_class := m, pfx := normPfx, name_map := st.name_map }
      let r' : Registry :=
        { r with
          plugins := dinsert r.plugins pluginName rec0,
          fields := st.fields, collisions := st.collisions, dirty := true }
      (if rebuild then rebuildR r' else r', none)

/-- Embedding of `register`: `_register_model(model, prefix, rebuild=True)`
under the lock, then `_notify_change()`; an exception propagates before the
notification fires. -/
def registerR (obj : PyObj) (pfx0 : Option String) (r : Registry) :
    Registry × Option PyErr :=
  match registerModel obj pfx0 true r with
  | (r', none) => (notifyChange r', none)
  | (r', some e) => (r', some e)

/-- The argument of `unregister`: a model class, a plugin name, or some other
object (rejected with `TypeError`). -/
inductive UnregArg : Type
  | byModel (m : PModel)
  | byName (s : String)
  | badArg (d : String)
deriving DecidableEq, Repr

/-- Embedding of `_rebuild_from_plugins`: clear the field and collision tables,
re-run `_add_fields` for every remaining plugin (resetting its name map), mark
dirty and rebuild. -/
def rebuildFromPlugins (r : Registry) : Registry :=
  let st0 : AddSt := { fields := [], collisions := [], name_map := [] }
  let step := fun (acc : List (String × PRecord) × AddSt)
      (pr : String × PRecord) =>
    let priority : Nat := if truthyOpt pr.2.pfx then 2 else 1
    let st := addFields pr.2.model_class pr.2.pfx pr.1 priority
      { fields := acc.2.fields, collisions := acc.2.collisions, name_map := [] }
    (acc.1 ++ [(pr.1, { pr.2 with name_map := st.name_map })], st)
  let out := r.plugins.foldl step ([], st0)
  let stOut := out.2
  rebuildR
    { r with
      plugins := out.1,
      fields := stOut.fields,
      collisions := stOut.collisions,
      dirty := true }

/-- Embedding of `unregister`: resolve the plugin name, fail with `KeyError` if
unknown, else delete it, rebuild everything from the remaining plugins, and
notify listeners. -/
def unregisterR (arg : UnregArg) (r : Registry) : Registry × Option PyErr :=
  match arg with
  | UnregArg.badArg d =>
    (r, some (PyErr.typeErr ("expected a model class or a plugin name: " ++ d)))
  | UnregArg.byModel m =>
    let pluginName := pyLower m.name
    if (dlookup r.plugins pluginName).isSome then
      (notifyChange (rebuildFromPlugins { r with plugins := derase r.plugins pluginName }),
        none)
    else (r, some (PyErr.keyErr ("plugin not registered: " ++ pluginName)))
  | UnregArg.byName s =>
    let pluginName := pyLower s
    if (dlookup r.plugins pluginName).isSome then
      (notifyChange (rebuildFromPlugins { r with plugins := derase r.plugins pluginName }),
        none)
    else (r, some (PyErr.keyErr ("plugin not registered: " ++ pluginName)))

/-- Embedding of `schema()`: return the current composed model, raising
`RuntimeError` when nothing is registered (`self._model is None`). -/
def schemaR (r : Registry) : Except PyErr (List (String × (String × FieldInfo))) :=
  match r.model with
  | none => Except.error (PyErr.runtimeErr "nothing registered; call .register() first")
  | some md => Except.ok md

/-- Instantiating the composed model with keyword arguments: each field takes
the supplied value if present, otherwise its default; a required field with no
supplied value raises a validation error.  Unknown keyword arguments are
ignored (pydantic's default `extra` behaviour). -/
def mkInstance (md : List (String × (String × FieldInfo)))
    (kwargs : List (String × PyVal)) : Except PyErr (List (String × PyVal)) :=
  match md with
  | [] => Except.ok []
  | (k, (_, fi)) :: rest =>
    match dlookup kwargs k with
    | some v => (mkInstance rest kwargs).map fun tl => (k, v) :: tl
    | none =>
      match fi.default with
      | some d => (mkInstance rest kwargs).map fun tl => (k, d) :: tl
      | none => Except.error (PyErr.validationErr ("field required: " ++ k))

/-- Embedding of `instance(**kwargs)`: instantiate the current model (its
`model_dump` is the resulting name→value table). -/
def instanceR (r : Registry) (kwargs : List (String × PyVal)) :
    Except PyErr (List (String × PyVal)) :=
  match schemaR r with
  | Except.error e => Except.error e
  | Except.ok md => mkInstance md kwargs

/-- Embedding of `unmap`: project a composed instance back through the target
fragment's name map; composed names missing from the instance data are
silently skipped (logged at warning level in the source). -/
def unmapR (r : Registry) (inst : List (String × PyVal)) (target : PyObj) :
    Except PyErr (List (String × PyVal)) :=
  match target with
  | PyObj.nonModel d =>
    Except.error (PyErr.typeErr ("expected a pydantic BaseModel class, got: " ++ d))
  | PyObj.mdl m =>
    let pluginName := pyLower m.name
    match dlookup r.plugins pluginName with
    | none => Except.error (PyErr.keyErr ("plugin not registered: " ++ pluginName))
    | some rec0 =>
      Except.ok (rec0.name_map.foldl
        (fun acc p =>
          match dlookup inst p.2 with
          | some v => acc ++ [(p.1, v)]
          | none => acc) [])

/-- Embedding of `fields()`: the introspection snapshot of the field table. -/
def fieldsR (r : Registry) : List (String × (String × Option PyVal × Nat × String)) :=
  r.fields.map fun p =>
    (p.1, (p.2.annot, p.2.field_info.default, p.2.priority, p.2.source_plugin))

/-- Embedding of `collisions()`: the list of composed names that saw an
overwrite. -/
def collisionsR (r : Registry) : List String := dkeys r.collisions

/-- Embedding of `plugins()`: the list of registered plugin ids. -/
def pluginsR (r : Registry) : List String := dkeys r.plugins

/-!
## Plugin loader (`core/plugin/loader.py`)

The filesystem is embedded as a snapshot: the plugins directory listing and
the state file.  A plugin's entry unit `app.py` carries its `st_mtime_ns`
fingerprint and its behaviour under `exec_module`: either a list of top-level
`APIRouter` objects (identified by numeric object ids) or a raised exception
message.  `hashlib.md5(resolved_path)[:8]` is modelled by an injective
stand-in: the resolved path itself (the source treats the digest as a stable,
collision-free token of the resolved path).
-/

/-- Behaviour of executing a plugin's entry module: the top-level `APIRouter`
objects it defines (object identities as numbers), or the exception it
raises (`str(exc)`). -/
inductive ModuleContent : Type
  | routersOf (rs : List Nat)
  | raisesOn (msg : String)
deriving DecidableEq, Repr

/-- A plugin's entry unit `app.py`: its `st_mtime_ns` fingerprint and its
execution behaviour. -/
structure AppFile where
  mtimeNs : Nat
  content : ModuleContent
deriving DecidableEq, Repr

/-- One entry of the plugins directory listing. -/
structure FsDirEntry where
  name : String
  isDir : Bool
  app : Option AppFile
deriving DecidableEq, Repr

/-- Embedding of `_iter_plugin_dirs`: subdirectories whose name starts with
neither `.` nor `__`. -/
def discoveredDirs (fs : List FsDirEntry) : List FsDirEntry :=
  fs.filter fun d =>
    d.isDir && !(d.name.startsWith "." || d.name.startsWith "__")

/-- Embedding of `PluginRecord` (`core/plugin/models.py`).  `routers` holds
the object identities of the extracted route groups. -/
structure PluginRec where
  name : String
  path : String
  module_name : String
  routers : List Nat
  enabled : Bool
  error : Option String
  module_mtime_ns : Option Nat
deriving DecidableEq, Repr

/-- A character kept verbatim by `re.sub(r"[^a-zA-Z0-9_]+", "_", ...)`. -/
def isWordChar (c : Char) : Bool := c.isAlphanum || c = '_'

theorem dropWhile_length_le {α : Type} (p : α → Bool) (l : List α) :
    (l.dropWhile p).length ≤ l.length := by
  induction l with
  | nil => simp [List.dropWhile]
  | cons a tl ih =>
    by_cases h : p a
    · simp only [List.dropWhile, h]; exact Nat.le_succ_of_le ih
    · simp only [List.dropWhile, h]; simp

/-- Embedding of `re.sub(r"[^a-zA-Z0-9_]+", "_", name)`: each maximal run of
non-word characters collapses to a single underscore. -/
def safeNameChars : List Char → List Char
  | [] => []
  | c :: rest =>
    if isWordChar c then c :: safeNameChars rest
    else '_' :: safeNameChars (rest.dropWhile fun x => !isWordChar x)
termination_by l => l.length
decreasing_by
  · simp only [List.length_cons]; omega
  · have := dropWhile_length_le (fun x => !isWordChar x) rest
    simp only [List.length_cons]; omega

/-- The `safe_name` of a plugin directory name. -/
def mkSafeName (s : String) : String := ⟨safeNameChars s.data⟩

/-- Stand-in for `hashlib.md5(str(module_path.resolve()).encode())[:8]`: an
injective stable token of the resolved entry-unit path. -/
def moduleIdOf (resolvedPath : String) : String := resolvedPath

/-- The resolved path of a plugin's entry unit. -/
def modulePathOf (dirPath pluginName : String) : String :=
  dirPath ++ "/" ++ pluginName ++ "/app.py"

/-- Embedding of `module_name = f"plugin_{safe_name}_{module_id}"`. -/
def mkModuleName (dirPath pluginName : String) : String :=
  "plugin_" ++ mkSafeName pluginName ++ "_" ++ moduleIdOf (modulePathOf dirPath pluginName)

/-- The on-disk state file: absent, or present with an `st_mtime_ns` and its
parsed JSON content (`none` = unreadable or not a JSON object). -/
abbrev StateFileT : Type := Option (Nat × Option (List (String × Bool)))

/-- The world outside the loader's memory: the state file and a clock
supplying fresh modification times for writes. -/
structure World where
  stateFile : StateFileT
  clock : Nat
deriving DecidableEq

/-- Embedding of `_load_state`: a missing or unparsable state file degrades to
the empty map. -/
def loadStateContent : Option (List (String × Bool)) → List (String × Bool)
  | none => []
  | some m => m

/-- The parsed persisted map of a world's state file. -/
def loadStateW (w : World) : List (String × Bool) :=
  match w.stateFile with
  | none => []
  | some (_, c) => loadStateContent c

/-- Embedding of `_state_file_mtime`. -/
def stateFileMtime (w : World) : Option Nat :=
  match w.stateFile with
  | none => none
  | some (t, _) => some t

/-- In-memory state of a `PluginRegistry`: the enabled map, the last-seen
state-file fingerprint, the per-plugin module fingerprints, the record table,
and the set of registered module names (`sys.modules`). -/
structure LoaderMem where
  state : List (String × Bool)
  state_mtime : Option Nat
  module_mtimes : List (String × Nat)
  records : List (String × PluginRec)
  sysModules : List String
deriving DecidableEq

/-- Embedding of `_sync_records_enabled`: refresh each record's `enabled`
flag from the state map. -/
def syncRecsEnabled (st : List (String × Bool)) (recs : List (String × PluginRec)) :
    List (String × PluginRec) :=
  recs.map fun p => (p.1, { p.2 with enabled := (dlookup st p.1).getD false })

/-- Embedding of `_refresh_state_from_disk`: a vanished file empties the map;
a changed fingerprint reloads the map and re-syncs record flags. -/
def refreshStateFromDisk (w : World) (mem : LoaderMem) : LoaderMem :=
  match w.stateFile with
  | none =>
    let mem' :=
      if mem.state ≠ [] then
        { mem with state := [], records := syncRecsEnabled [] mem.records }
      else mem
    { mem' with state_mtime := none }
  | some (t, c) =>
    if mem.state_mtime = none ∨ mem.state_mtime ≠ some t then
      let st := loadStateContent c
      { mem with
        state := st,
        state_mtime := some t,
        records := syncRecsEnabled st mem.records }
    else mem

/-- Embedding of `_save_state`: atomically write the current map; the file's
new fingerprint is recorded as last-seen. -/
def saveStateW (w : World) (mem : LoaderMem) : World × LoaderMem :=
  ({ stateFile := some (w.clock, some mem.state), clock := w.clock + 1 },
    { mem with state_mtime := some w.clock })

/-- Embedding of `is_enabled`: refresh from disk, then read the flag
(default `False`). -/
def isEnabledM (w : World) (mem : LoaderMem) (name : String) : Bool × LoaderMem :=
  let mem' := refreshStateFromDisk w mem
  ((dlookup mem'.state name).getD false, mem')

/-- Remove a key from the `sys.modules` embedding (`sys.modules.pop(n, None)`). -/
def smPop (l : List String) (n : String) : List String := l.erase n

/-- Set a key in the `sys.modules` embedding (`sys.modules[n] = module`).  An
existing key keeps its position. -/
def smSet (l : List String) (n : String) : List String :=
  if n ∈ l then l else l ++ [n]

/-- The loop body of `load_plugins` for one discovered plugin directory,
threading `(memory, records returned so far)`.  Three branches, as in the
source: missing entry unit, fingerprint cache hit, and (re)load with per-plugin
exception isolation. -/
def processDir (dirPath : String) (acc : LoaderMem × List PluginRec)
    (d : FsDirEntry) : LoaderMem × List PluginRec :=
  let mem := acc.1
  let pluginName := d.name
  let dirFull := dirPath ++ "/" ++ d.name
  let moduleName := mkModuleName dirPath d.name
  match d.app with
  | none =>
    let rec0 : PluginRec :=
      { name := pluginName, path := dirFull, module_name := moduleName,
        routers := [], enabled := (dlookup mem.state pluginName).getD false,
        error := some "app.py not found", module_mtime_ns := none }
    ({ mem with
        records := dinsert mem.records pluginName rec0,
        module_mtimes := derase mem.module_mtimes pluginName },
      acc.2 ++ [rec0])
  | some appf =>
    let moduleMtime := appf.mtimeNs
    let cachedMtime := dlookup mem.module_mtimes pluginName
    let rec0 := dlookup mem.records pluginName
    match rec0 with
    | some r =>
      if r.error = none ∧ r.module_name = moduleName ∧ cachedMtime = some moduleMtime then
        let r' := { r with
          enabled := (dlookup mem.state pluginName).getD false,
          module_mtime_ns := some moduleMtime }
        ({ mem with records := dinsert mem.records pluginName r' }, acc.2 ++ [r'])
      else
        let sm1 := smSet (smPop mem.sysModules r.module_name) moduleName
        let newRec : PluginRec :=
          match appf.content with
          | ModuleContent.routersOf rs =>
            { name := pluginName, path := dirFull, module_name := moduleName,
              routers := rs, enabled := (dlookup mem.state pluginName).getD false,
              error := none, module_mtime_ns := some moduleMtime }
          | ModuleContent.raisesOn msg =>
            { name := pluginName, path := dirFull, module_name := moduleName,
              routers := [], enabled := (dlookup mem.state pluginName).getD false,
              error := some msg, module_mtime_ns := some moduleMtime }
        ({ mem with
            records := dinsert mem.records pluginName newRec,
            module_mtimes := dinsert mem.module_mtimes pluginName moduleMtime,
            sysModules := sm1 },
          acc.2 ++ [newRec])
    | none =>
      let sm1 := smSet mem.sysModules moduleName
      let newRec : PluginRec :=
        match appf.content with
        | ModuleContent.routersOf rs =>
          { name := pluginName, path := dirFull, module_name := moduleName,
            routers := rs, enabled := (dlookup mem.state pluginName).getD false,
            error := none, module_mtime_ns := some moduleMtime }
        | ModuleContent.raisesOn msg =>
          { name := pluginName, path := dirFull, module_name := moduleName,
            routers := [], enabled := (dlookup mem.state pluginName).getD false,
            error := some msg, module_mtime_ns := some moduleMtime }
      ({ mem with
          records := dinsert mem.records pluginName newRec,
          module_mtimes := dinsert mem.module_mtimes pluginName moduleMtime,
          sysModules := sm1 },
        acc.2 ++ [newRec])

/-- Drop one stale plugin: its record, its fingerprint, and its module. -/
def dropStale (mem : LoaderMem) (name : String) : LoaderMem :=
  let mem' :=
    match dlookup mem.records name with
    | some r => { mem with sysModules := smPop mem.sysModules r.module_name }
    | none => mem
  { mem' with
    records := derase mem'.records name,
    module_mtimes := derase mem'.module_mtimes name }

/-- Embedding of `_sync_plugin_states`: default `False` entries for newly
discovered plugins, deletion of entries for vanished plugins, and an immediate
rewrite when anything changed or the file is missing. -/
def syncPluginStates (w : World) (mem : LoaderMem) (records : List PluginRec) :
    World × LoaderMem :=
  let stepAdd := fun (acc : List (String × Bool) × Bool) (r : PluginRec) =>
    if (dlookup acc.1 r.name).isSome then acc else (dinsert acc.1 r.name false, true)
  let added := records.foldl stepAdd (mem.state, false)
  let found := records.map (·.name)
  let staleKeys := (dkeys added.1).filter fun k => !(found.contains k)
  let afterDel := staleKeys.foldl (fun st k => derase st k) added.1
  let updated := added.2 || !staleKeys.isEmpty
  let mem' := { mem with state := afterDel }
  if updated ∨ w.stateFile = none then saveStateW w mem' else (w, mem')

/-- Embedding of `load_plugins`: refresh from disk, process every discovered
plugin directory, drop records whose directory vanished, then sync the
persisted state.  Returns the updated world, memory, and the records of this
pass. -/
def loadPlugins (dirPath : String) (fs : List FsDirEntry) (w : World)
    (mem : LoaderMem) : World × LoaderMem × List PluginRec :=
  let mem0 := refreshStateFromDisk w mem
  let out := (discoveredDirs fs).foldl (processDir dirPath) (mem0, [])
  let mem1 := out.1
  let found := (discoveredDirs fs).map (·.name)
  let staleRecs := (dkeys mem1.records).filter fun n => !(found.contains n)
  let mem2 := staleRecs.foldl dropStale mem1
  let ws := syncPluginStates w mem2 out.2
  (ws.1, ws.2, out.2)

/-- An HTTP exception as raised by the per-request guard. -/
structure HTTPExc where
  status_code : Nat
  detail : String
deriving DecidableEq, Repr

/-- Embedding of the dependency closure built by `_require_plugin_enabled`:
on each request it consults `is_enabled` (which refreshes from disk) and
raises 503 when the plugin is not enabled. -/
def requirePluginEnabled (w : World) (mem : LoaderMem) (name : String) :
    Option HTTPExc × LoaderMem :=
  let en := isEnabledM w mem name
  if en.1 = false then
    (some { status_code := 503, detail := "Plugin '" ++ name ++ "' is disabled" }, en.2)
  else (none, en.2)

/-- The route-group bindings made by the `include_plugins` loop: every router
of every record with at least one router is bound with a per-request
dependency guard on that record's plugin name. -/
def includeGuards (records : List PluginRec) : List (Nat × String) :=
  records.foldl
    (fun acc r =>
      if r.routers.isEmpty then acc
      else acc ++ r.routers.map fun rt => (rt, r.name)) []

/-!
## Dictionary lemmas
-/

theorem dlookup_dinsert_self {α : Type} (d : List (String × α)) (k : String) (v : α) :
    dlookup (dinsert d k v) k = some v := by
  induction d with
  | nil => simp [dinsert, dlookup]
  | cons hd tl ih =>
    by_cases h : hd.1 = k
    · simp [dinsert, dlookup, h]
    · simp [dinsert, dlookup, h, ih]

theorem dlookup_dinsert_ne {α : Type} (d : List (String × α)) (k k' : String) (v : α)
    (h : k' ≠ k) : dlookup (dinsert d k v) k' = dlookup d k' := by
  have hkk : ¬ k = k' := fun hh => h hh.symm
  induction d with
  | nil =>
    simp only [dinsert, dlookup]
    rw [if_neg hkk]
  | cons hd tl ih =>
    by_cases hh : hd.1 = k
    · subst hh
      simp only [dinsert, if_pos rfl, dlookup]
      rw [if_neg hkk, if_neg hkk]
    · simp only [dinsert, if_neg hh, dlookup]
      by_cases hk' : hd.1 = k'
      · rw [if_pos hk', if_pos hk']
      · rw [if_neg hk', if_neg hk', ih]

theorem mem_dkeys_dinsert {α : Type} (d : List (String × α)) (k : String) (v : α) :
    k ∈ dkeys (dinsert d k v) := by
  induction d with
  | nil => simp [dinsert, dkeys]
  | cons hd tl ih =>
    by_cases h : hd.1 = k
    · simp [dinsert, dkeys, h]
    · simp only [dinsert, if_neg h, dkeys, List.map_cons, List.mem_cons]
      exact Or.inr ih

theorem mem_dkeys_of_dlookup {α : Type} (d : List (String × α)) (k : String) (v : α)
    (h : dlookup d k = some v) : k ∈ dkeys d := by
  induction d with
  | nil => simp [dlookup] at h
  | cons hd tl ih =>
    simp only [dlookup] at h
    by_cases hh : hd.1 = k
    · simp [dkeys, hh]
    · rw [if_neg hh] at h
      simp only [dkeys, List.map_cons, List.mem_cons]
      exact Or.inr (ih h)

/-- C1: when a newly inserted field entry's composed name collides with an
existing entry, the new entry replaces the old one iff its priority is greater
than or equal to the existing entry's priority; in particular at equal
priority the later insertion's entry is the one held in the field table. -/
theorem C1_collision_replace_iff_ge
    (modelName pluginName : String) (pfx : Option String)
    (priority : Nat) (st : AddSt) (fld : String × FieldInfo) (old : FieldEntry)
    (hold : dlookup st.fields (buildTransformedName pfx modelName fld.1) = some old) :
    (dlookup (addOneField modelName pfx pluginName priority st fld).fields
        (buildTransformedName pfx modelName fld.1) =
      some { annot := fld.2.annot, field_info := fld.2, priority := priority,
             source_plugin := pluginName }
      ↔ old.priority ≤ priority)
    ∧ (priority = old.priority →
        dlookup (addOneField modelName pfx pluginName priority st fld).fields
          (buildTransformedName pfx modelName fld.1) =
        some { annot := fld.2.annot, field_info := fld.2, priority := priority,
               source_plugin := pluginName }) := by
  simp only [addOneField, hold]
  rcases Nat.lt_trichotomy priority old.priority with hlt | heq | hgt
  · have h2 : ¬ priority = old.priority := by omega
    simp only [gt_iff_lt]
    rw [if_neg (by omega : ¬ old.priority < priority)]
    rw [if_neg h2]
    constructor
    · constructor
      · intro hl
        rw [hold] at hl
        have hoe := Option.some.inj hl
        have : old.priority = priority := by rw [hoe]
        omega
      · intro hle; omega
    · intro hpe; omega
  · simp only [gt_iff_lt]
    rw [if_neg (by omega : ¬ old.priority < priority), if_pos heq]
    constructor
    · constructor
      · intro _; omega
      · intro _; exact dlookup_dinsert_self _ _ _
    · intro _; exact dlookup_dinsert_self _ _ _
  · simp only [gt_iff_lt]
    rw [if_pos (by omega : old.priority < priority)]
    constructor
    · constructor
      · intro _; omega
      · intro _; exact dlookup_dinsert_self _ _ _
    · intro hpe; omega

/-- A sample field-info value used in concrete scenarios. -/
def exFi (n : Int) : FieldInfo := { annot := "int", default := some (PyVal.vint n) }

/-- A sample field entry at priority 1 from plugin `c`. -/
def exEntryP1 : FieldEntry :=
  { annot := "int", field_info := exFi 1, priority := 1, source_plugin := "c" }

/-- The concrete pre-collision state used by the C1 witness. -/
def exSt1 : AddSt :=
  { fields := [("c:d", exEntryP1)], collisions := [], name_map := [] }

/-- Witness for `C1_collision_replace_iff_ge` at a concrete collision. -/
theorem C1_collision_replace_iff_ge_witness :
    dlookup exSt1.fields (buildTransformedName none "C" "d") = some exEntryP1
    ∧ ((dlookup (addOneField "C" none "c2" 1 exSt1 ("d", exFi 2)).fields
          (buildTransformedName none "C" "d") =
        some { annot := (exFi 2).annot, field_info := exFi 2, priority := 1,
               source_plugin := "c2" }
        ↔ exEntryP1.priority ≤ 1)
      ∧ (1 = exEntryP1.priority →
          dlookup (addOneField "C" none "c2" 1 exSt1 ("d", exFi 2)).fields
            (buildTransformedName none "C" "d") =
          some { annot := (exFi 2).annot, field_info := exFi 2, priority := 1,
                 source_plugin := "c2" })) :=
  ⟨by decide,
    C1_collision_replace_iff_ge "C" "c2" none 1 exSt1 ("d", exFi 2) exEntryP1 (by decide)⟩

/-- A fragment with class name `C` (plugin id `c`), one field `d`. -/
def exModelC : PModel := { name := "C", model_fields := [("d", exFi 1)] }

/-- A fragment with class name `b:c` (plugin id `b:c`), one field `d`; with
namespace `a` it composes to the same name `a:b:c:d` as `exModelC` under
namespace `a:b`. -/
def exModelBC : PModel := { name := "b:c", model_fields := [("d", exFi 2)] }

/-- C3, counterexample: registering `C` under namespace `a:b` and then `b:c`
under namespace `a` collides on the composed name `a:b:c:d` at equal priority;
the losing plugin is `c`, yet the collision table records `b:c` — the winner —
so the registry does not record the losing plugin's identifier. -/
theorem C3_counterexample :
    dlookup (registerR (PyObj.mdl exModelBC) (some "a")
        (registerR (PyObj.mdl exModelC) (some "a:b") freshRegistry).1).1.collisions
      "a:b:c:d" = some "b:c"
    ∧ ¬ dlookup (registerR (PyObj.mdl exModelBC) (some "a")
        (registerR (PyObj.mdl exModelC) (some "a:b") freshRegistry).1).1.collisions
      "a:b:c:d" = some "c" := by
  constructor
  · decide
  · decide

/-- C3, amended: whenever a composed-name collision occurs, the registry
records for that composed name the identifier of the *winning* plugin — the
newly inserted plugin when its priority is greater than or equal to the
existing one, otherwise the existing entry's source plugin — and the composed
name appears in the `collisions()` listing. -/
theorem C3_amended_records_winner
    (modelName pluginName : String) (pfx : Option String)
    (priority : Nat) (st : AddSt) (fld : String × FieldInfo) (old : FieldEntry)
    (hold : dlookup st.fields (buildTransformedName pfx modelName fld.1) = some old) :
    dlookup (addOneField modelName pfx pluginName priority st fld).collisions
        (buildTransformedName pfx modelName fld.1) =
      some (if old.priority ≤ priority then pluginName else old.source_plugin)
    ∧ buildTransformedName pfx modelName fld.1
        ∈ dkeys (addOneField modelName pfx pluginName priority st fld).collisions := by
  simp only [addOneField, hold]
  rcases Nat.lt_trichotomy priority old.priority with hlt | heq | hgt
  · have h2 : ¬ priority = old.priority := by omega
    simp only [gt_iff_lt]
    rw [if_neg (by omega : ¬ old.priority < priority), if_neg h2,
      if_neg (by omega : ¬ old.priority ≤ priority)]
    exact ⟨dlookup_dinsert_self _ _ _, mem_dkeys_dinsert _ _ _⟩
  · simp only [gt_iff_lt]
    rw [if_neg (by omega : ¬ old.priority < priority), if_pos heq,
      if_pos (by omega : old.priority ≤ priority)]
    exact ⟨dlookup_dinsert_self _ _ _, mem_dkeys_dinsert _ _ _⟩
  · simp only [gt_iff_lt]
    rw [if_pos (by omega : old.priority < priority),
      if_pos (by omega : old.priority ≤ priority)]
    exact ⟨dlookup_dinsert_self _ _ _, mem_dkeys_dinsert _ _ _⟩

/-- Witness for `C3_amended_records_winner` at a concrete collision. -/
theorem C3_amended_records_winner_witness :
    dlookup exSt1.fields (buildTransformedName none "C" "d") = some exEntryP1
    ∧ (dlookup (addOneField "C" none "c2" 2 exSt1 ("d", exFi 2)).collisions
          (buildTransformedName none "C" "d") =
        some (if exEntryP1.priority ≤ 2 then "c2" else exEntryP1.source_plugin)
      ∧ buildTransformedName none "C" "d"
          ∈ dkeys (addOneField "C" none "c2" 2 exSt1 ("d", exFi 2)).collisions) :=
  ⟨by decide,
    C3_amended_records_winner "C" "c2" none 2 exSt1 ("d", exFi 2) exEntryP1 (by decide)⟩

theorem dlookup_dinsert {α : Type} (d : List (String × α)) (k k' : String) (v : α) :
    dlookup (dinsert d k v) k' = if k' = k then some v else dlookup d k' := by
  by_cases h : k' = k
  · rw [if_pos h, h]; exact dlookup_dinsert_self _ _ _
  · rw [if_neg h]; exact dlookup_dinsert_ne _ _ _ _ h

theorem rebuildR_plugins (r : Registry) : (rebuildR r).plugins = r.plugins := by
  unfold rebuildR; split
  · rfl
  · split <;> rfl

theorem rebuildR_fields (r : Registry) : (rebuildR r).fields = r.fields := by
  unfold rebuildR; split
  · rfl
  · split <;> rfl

theorem rebuildR_collisions (r : Registry) : (rebuildR r).collisions = r.collisions := by
  unfold rebuildR; split
  · rfl
  · split <;> rfl

theorem notifyChange_plugins (r : Registry) : (notifyChange r).plugins = r.plugins := rfl

theorem notifyChange_fields (r : Registry) : (notifyChange r).fields = r.fields := rfl

theorem addOneField_source_priority
    (modelName pluginName : String) (pfx : Option String) (prio : Nat)
    (st : AddSt) (fld : String × FieldInfo)
    (hinv : ∀ k e, dlookup st.fields k = some e → e.source_plugin = pluginName →
      e.priority = prio) :
    ∀ k e, dlookup (addOneField modelName pfx pluginName prio st fld).fields k = some e →
      e.source_plugin = pluginName → e.priority = prio := by
  intro k e h hsrc
  simp only [addOneField] at h
  cases hl : dlookup st.fields (buildTransformedName pfx modelName fld.1) with
  | none =>
    rw [hl] at h
    simp only at h
    rw [dlookup_dinsert] at h
    by_cases hk : k = buildTransformedName pfx modelName fld.1
    · rw [if_pos hk] at h
      have := Option.some.inj h
      rw [← this]
    · rw [if_neg hk] at h
      exact hinv k e h hsrc
  | some exi =>
    rw [hl] at h
    simp only at h
    by_cases h1 : prio > exi.priority
    · rw [if_pos h1] at h
      simp only at h
      rw [dlookup_dinsert] at h
      by_cases hk : k = buildTransformedName pfx modelName fld.1
      · rw [if_pos hk] at h
        have := Option.some.inj h
        rw [← this]
      · rw [if_neg hk] at h
        exact hinv k e h hsrc
    · rw [if_neg h1] at h
      by_cases h2 : prio = exi.priority
      · rw [if_pos h2] at h
        simp only at h
        rw [dlookup_dinsert] at h
        by_cases hk : k = buildTransformedName pfx modelName fld.1
        · rw [if_pos hk] at h
          have := Option.some.inj h
          rw [← this]
        · rw [if_neg hk] at h
          exact hinv k e h hsrc
      · rw [if_neg h2] at h
        simp only at h
        exact hinv k e h hsrc

theorem foldl_addOneField_source_priority
    (modelName pluginName : String) (pfx : Option String) (prio : Nat)
    (l : List (String × FieldInfo)) (st : AddSt)
    (hinv : ∀ k e, dlookup st.fields k = some e → e.source_plugin = pluginName →
      e.priority = prio) :
    ∀ k e, dlookup (l.foldl (addOneField modelName pfx pluginName prio) st).fields k =
        some e → e.source_plugin = pluginName → e.priority = prio := by
  induction l generalizing st with
  | nil => exact hinv
  | cons hd tl ih =>
    simp only [List.foldl_cons]
    exact ih _ (addOneField_source_priority modelName pluginName pfx prio st hd hinv)

/-- Modelled from the spec wording of the normalization step: "replace path
separators with colons, strip leading/trailing colons, lowercase". -/
def specNormalizeNamespace (p : String) : String :=
  pyLower ⟨stripColonChars (p.data.map fun c =>
    if c = '/' ∨ c = '\\' then ':' else c)⟩

theorem normalizePfx_eq_spec (p : String) : normalizePfx p = specNormalizeNamespace p := by
  unfold normalizePfx specNormalizeNamespace
  have hx : List.map ((fun c => if c = '/' then ':' else c) ∘ fun c => if c = '\\' then '/' else c)
      p.data = List.map (fun c => if c = '/' ∨ c = '\\' then ':' else c) p.data := by
    apply List.map_congr_left
    intro c _
    by_cases h1 : c = '\\'
    · simp [h1, Function.comp]
    · by_cases h2 : c = '/'
      · simp [h1, h2, Function.comp]
      · simp [h1, h2, Function.comp]
  rw [List.map_map, hx]

theorem registerModel_ok (m : PModel) (p : String) (rebuild : Bool) (r : Registry)
    (hp : p ≠ "") (hfresh : dlookup r.plugins (pyLower m.name) = none) :
    registerModel (PyObj.mdl m) (some p) rebuild r =
      (let np := normalizePfx p
       let prio : Nat := if truthyOpt (some np) then 2 else 1
       let st := addFields m (some np) (pyLower m.name) prio
         { fields := r.fields, collisions := r.collisions, name_map := [] }
       let rr : Registry :=
         { r with
           plugins := dinsert r.plugins (pyLower m.name)
             { model_class := m, pfx := some np, name_map := st.name_map },
           fields := st.fields,
           collisions := st.collisions,
           dirty := true }
       ((if rebuild then rebuildR rr else rr), none)) := by
  simp only [registerModel, hfresh, Option.isSome_none, Bool.false_eq_true, if_false, if_neg hp]

/-- The `normalized_prefix` computed by `_register_model`:
`_normalize_prefix(prefix) if prefix else None` (absent and empty supplied
prefixes are falsy). -/
def normPfxOf : Option String → Option String
  | none => none
  | some p => if p = "" then none else some (normalizePfx p)

theorem registerModel_ok_any (m : PModel) (pfx0 : Option String) (rebuild : Bool)
    (r : Registry) (hfresh : dlookup r.plugins (pyLower m.name) = none) :
    registerModel (PyObj.mdl m) pfx0 rebuild r =
      (let np : Option String := normPfxOf pfx0
       let prio : Nat := if truthyOpt np then 2 else 1
       let st := addFields m np (pyLower m.name) prio
         { fields := r.fields, collisions := r.collisions, name_map := [] }
       let rr : Registry :=
         { r with
           plugins := dinsert r.plugins (pyLower m.name)
             { model_class := m, pfx := np, name_map := st.name_map },
           fields := st.fields,
           collisions := st.collisions,
           dirty := true }
       ((if rebuild then rebuildR rr else rr), none)) := by
  cases pfx0 <;>
    simp only [registerModel, normPfxOf, hfresh, Option.isSome_none, Bool.false_eq_true,
      if_false]

/-- C8, counterexample: the supplied prefix `":"` is truthy (so a prefix *was*
supplied), but it normalizes to the empty string, so the registration's field
entry gets priority 1, not the claimed priority 2. -/
theorem C8_counterexample :
    (dlookup (registerR (PyObj.mdl { name := "M", model_fields := [("x", exFi 1)] })
        (some ":") freshRegistry).1.fields "m:x").map FieldEntry.priority = some 1
    ∧ ¬ (dlookup (registerR (PyObj.mdl { name := "M", model_fields := [("x", exFi 1)] })
        (some ":") freshRegistry).1.fields "m:x").map FieldEntry.priority = some 2 := by
  constructor
  · decide
  · decide

/-- C8, amended: prefix normalization replaces path separators with colons,
strips leading and trailing colons and lowercases (the spec-worded normalizer
coincides with the code's on every string); for every prefix option supplied to
`register` — absent, empty, or any other string — the stored fragment record
carries the normalized prefix (`None` when the prefix is absent or the empty
string); and the registration's field entries get priority 1 when no prefix
was supplied or the supplied prefix normalizes to the empty string, and
priority 2 exactly when the supplied prefix normalizes to a nonempty string. -/
theorem C8_amended_normalization_and_priority
    (m : PModel) (pfx0 : Option String) (r : Registry)
    (hfresh : dlookup r.plugins (pyLower m.name) = none)
    (hstale : ∀ k e, dlookup r.fields k = some e → e.source_plugin ≠ pyLower m.name) :
    (∀ p : String, normalizePfx p = specNormalizeNamespace p)
    ∧ (∃ rec0, dlookup (registerR (PyObj.mdl m) pfx0 r).1.plugins (pyLower m.name) =
        some rec0 ∧ rec0.pfx = normPfxOf pfx0)
    ∧ (∀ k e, dlookup (registerR (PyObj.mdl m) pfx0 r).1.fields k = some e →
        e.source_plugin = pyLower m.name →
        ((pfx0 = none → e.priority = 1)
         ∧ ∀ p, pfx0 = some p →
            ((normalizePfx p = "" → e.priority = 1)
             ∧ (normalizePfx p ≠ "" → e.priority = 2)))) := by
  have hshape := registerModel_ok_any m pfx0 true r hfresh
  refine ⟨fun p => normalizePfx_eq_spec p, ?_, ?_⟩
  · simp only [registerR, hshape]
    simp only [if_true, notifyChange_plugins, rebuildR_plugins]
    exact ⟨_, dlookup_dinsert_self _ _ _, rfl⟩
  · simp only [registerR, hshape]
    simp only [if_true, notifyChange_fields, rebuildR_fields]
    simp only [addFields]
    intro k e h hsrc
    have hpe : e.priority = (if truthyOpt (normPfxOf pfx0) then 2 else 1 : Nat) :=
      foldl_addOneField_source_priority _ _ _ _ _ _
        (fun k' e' h' hs' => absurd hs' (hstale k' e' h')) k e h hsrc
    refine ⟨fun hnone => ?_, fun p hp => ⟨fun hq => ?_, fun hq => ?_⟩⟩
    · rw [hpe, hnone]; rfl
    · rw [hpe, hp]
      by_cases hp0 : p = ""
      · simp [normPfxOf, hp0, truthyOpt]
      · simp [normPfxOf, hp0, truthyOpt, hq]
    · have hp0 : ¬ p = "" := fun h0 => hq (by rw [h0]; decide)
      rw [hpe, hp]
      simp [normPfxOf, hp0, truthyOpt, hq]

/-- Witness for `C8_amended_normalization_and_priority` at prefix
`plugins/quiz` on a fresh registry. -/
theorem C8_amended_normalization_and_priority_witness :
    dlookup freshRegistry.plugins (pyLower "QuizPlugin") = none
    ∧ ((∀ p : String, normalizePfx p = specNormalizeNamespace p)
      ∧ (∃ rec0, dlookup (registerR
            (PyObj.mdl { name := "QuizPlugin", model_fields := [("attempts", exFi 3)] })
            (some "plugins/quiz") freshRegistry).1.plugins (pyLower "QuizPlugin") =
          some rec0 ∧ rec0.pfx = normPfxOf (some "plugins/quiz"))
      ∧ (∀ k e, dlookup (registerR
            (PyObj.mdl { name := "QuizPlugin", model_fields := [("attempts", exFi 3)] })
            (some "plugins/quiz") freshRegistry).1.fields k = some e →
          e.source_plugin = pyLower "QuizPlugin" →
          (((some "plugins/quiz" : Option String) = none → e.priority = 1)
           ∧ ∀ p, (some "plugins/quiz" : Option String) = some p →
              ((normalizePfx p = "" → e.priority = 1)
               ∧ (normalizePfx p ≠ "" → e.priority = 2))))) :=
  ⟨by decide,
    C8_amended_normalization_and_priority
      { name := "QuizPlugin", model_fields := [("attempts", exFi 3)] }
      (some "plugins/quiz") freshRegistry (by decide)
      (fun k e h _ => nomatch h)⟩

/-- C9: `register` is atomic on failure — a non-schema argument or an
already-registered derived plugin id raises, leaves the registry state (its
plugin, field and collision tables, composed model, and broadcast count)
unchanged, and fires no change notification. -/
theorem C9_register_error_atomic (r : Registry) :
    (∀ d p0, ((registerR (PyObj.nonModel d) p0 r).2).isSome = true)
    ∧ (∀ m p0, ((dlookup r.plugins (pyLower m.name)).isSome = true) →
        ((registerR (PyObj.mdl m) p0 r).2).isSome = true)
    ∧ (∀ obj p0 e, (registerR obj p0 r).2 = some e → (registerR obj p0 r).1 = r) := by
  refine ⟨?_, ?_, ?_⟩
  · intro d p0
    simp [registerR, registerModel]
  · intro m p0 hdup
    simp [registerR, registerModel, hdup]
  · intro obj p0 e h
    cases obj with
    | nonModel d => rfl
    | mdl m =>
      by_cases hdup : (dlookup r.plugins (pyLower m.name)).isSome = true
      · simp [registerR, registerModel, hdup]
      · simp only [Bool.not_eq_true] at hdup
        simp [registerR, registerModel, hdup] at h

/-- A one-field fragment used in concrete registry scenarios. -/
def exModelM : PModel := { name := "M", model_fields := [("x", exFi 1)] }

/-- A registry holding exactly the fragment `exModelM`. -/
def exRegM : Registry := (registerR (PyObj.mdl exModelM) none freshRegistry).1

/-- Witness for `C9_register_error_atomic`: re-registering `exModelM` fails,
and registering a non-model fails leaving the registry unchanged. -/
theorem C9_register_error_atomic_witness :
    ((dlookup exRegM.plugins (pyLower exModelM.name)).isSome = true)
    ∧ ((registerR (PyObj.mdl exModelM) none exRegM).2).isSome = true
    ∧ (registerR (PyObj.nonModel "int") none exRegM).2 =
        some (PyErr.typeErr "expected a pydantic BaseModel class, got: int")
    ∧ (registerR (PyObj.nonModel "int") none exRegM).1 = exRegM :=
  ⟨by decide,
    (C9_register_error_atomic exRegM).2.1 exModelM none (by decide),
    by decide,
    (C9_register_error_atomic exRegM).2.2 (PyObj.nonModel "int") none
      (PyErr.typeErr "expected a pydantic BaseModel class, got: int") (by decide)⟩

theorem foldl_step_len (l : List (String × PRecord))
    (acc : List (String × PRecord) × AddSt) :
    ((l.foldl (fun acc pr =>
      let priority : Nat := if truthyOpt pr.2.pfx then 2 else 1
      let st := addFields pr.2.model_class pr.2.pfx pr.1 priority
        { fields := acc.2.fields, collisions := acc.2.collisions, name_map := [] }
      (acc.1 ++ [(pr.1, { pr.2 with name_map := st.name_map })], st)) acc).1).length =
    acc.1.length + l.length := by
  induction l generalizing acc with
  | nil => simp
  | cons hd tl ih =>
    simp only [List.foldl_cons, ih]
    simp [List.length_append]
    omega

theorem rebuildFromPlugins_empty (r : Registry) (h : r.plugins = []) :
    (rebuildFromPlugins r).model = none ∧ (rebuildFromPlugins r).fields = []
    ∧ (rebuildFromPlugins r).plugins = [] := by
  simp only [rebuildFromPlugins, h, List.foldl_nil]
  refine ⟨?_, ?_, ?_⟩ <;> simp [rebuildR]

/-- C10: when the registry holds no fields — fresh, or after every fragment
has been unregistered — `schema()` raises `RuntimeError` (and `instance()`
therefore raises as well) instead of returning an empty composed schema. -/
theorem C10_empty_schema_raises :
    (schemaR freshRegistry =
      Except.error (PyErr.runtimeErr "nothing registered; call .register() first"))
    ∧ (∀ kwargs, instanceR freshRegistry kwargs =
      Except.error (PyErr.runtimeErr "nothing registered; call .register() first"))
    ∧ (∀ arg r r', unregisterR arg r = (r', none) → r'.plugins = [] →
        r'.model = none
        ∧ schemaR r' =
          Except.error (PyErr.runtimeErr "nothing registered; call .register() first")
        ∧ ∀ kwargs, instanceR r' kwargs =
          Except.error (PyErr.runtimeErr "nothing registered; call .register() first")) := by
  refine ⟨rfl, fun kwargs => rfl, ?_⟩
  intro arg r r' hrun hempty
  have hmodel : r'.model = none := by
    cases arg with
    | badArg d => simp [unregisterR] at hrun
    | byModel m =>
      by_cases hin : (dlookup r.plugins (pyLower m.name)).isSome = true
      · simp only [unregisterR, hin, if_true] at hrun
        have hr' : r' = notifyChange (rebuildFromPlugins
            { r with plugins := derase r.plugins (pyLower m.name) }) := by
          have := congrArg Prod.fst hrun
          exact this.symm
        subst hr'
        have hlen := foldl_step_len (derase r.plugins (pyLower m.name))
          ([], { fields := [], collisions := [], name_map := [] })
        have hplug : (rebuildFromPlugins
            { r with plugins := derase r.plugins (pyLower m.name) }).plugins = [] := hempty
        simp only [rebuildFromPlugins, rebuildR_plugins] at hplug
        rw [hplug] at hlen
        simp at hlen
        have hnil : derase r.plugins (pyLower m.name) = [] :=
          List.length_eq_zero.mp hlen.symm
        exact (rebuildFromPlugins_empty _ hnil).1
      · simp [unregisterR, hin] at hrun
    | byName s =>
      by_cases hin : (dlookup r.plugins (pyLower s)).isSome = true
      · simp only [unregisterR, hin, if_true] at hrun
        have hr' : r' = notifyChange (rebuildFromPlugins
            { r with plugins := derase r.plugins (pyLower s) }) := by
          have := congrArg Prod.fst hrun
          exact this.symm
        subst hr'
        have hlen := foldl_step_len (derase r.plugins (pyLower s))
          ([], { fields := [], collisions := [], name_map := [] })
        have hplug : (rebuildFromPlugins
            { r with plugins := derase r.plugins (pyLower s) }).plugins = [] := hempty
        simp only [rebuildFromPlugins, rebuildR_plugins] at hplug
        rw [hplug] at hlen
        simp at hlen
        have hnil : derase r.plugins (pyLower s) = [] :=
          List.length_eq_zero.mp hlen.symm
        exact (rebuildFromPlugins_empty _ hnil).1
      · simp [unregisterR, hin] at hrun
  refine ⟨hmodel, ?_, ?_⟩
  · simp [schemaR, hmodel]
  · intro kwargs
    simp [instanceR, schemaR, hmodel]

/-- The registry after unregistering the only fragment of `exRegM`. -/
def exRegEmpty : Registry := (unregisterR (UnregArg.byModel exModelM) exRegM).1

/-- Witness for `C10_empty_schema_raises`: unregistering the only fragment
leaves a registry whose `schema()` raises. -/
theorem C10_empty_schema_raises_witness :
    unregisterR (UnregArg.byModel exModelM) exRegM = (exRegEmpty, none)
    ∧ exRegEmpty.plugins = []
    ∧ (exRegEmpty.model = none
      ∧ schemaR exRegEmpty =
        Except.error (PyErr.runtimeErr "nothing registered; call .register() first")
      ∧ ∀ kwargs, instanceR exRegEmpty kwargs =
        Except.error (PyErr.runtimeErr "nothing registered; call .register() first")) :=
  ⟨by decide, by decide,
    C10_empty_schema_raises.2.2 (UnregArg.byModel exModelM) exRegM exRegEmpty
      (by decide) (by decide)⟩

theorem getD_false_eq_true (o : Option Bool) : (o.getD false = true) ↔ o = some true := by
  cases o with
  | none => simp
  | some v => cases v <;> simp

/-- C6: the per-request guard consults the state store freshly on each request
and rejects with a distinct 503 "plugin disabled" signal (never 404) iff the
store does not report the plugin enabled at that moment; an enabled plugin
passes through.  The last conjunct shows freshness: under a state-file
fingerprint mismatch the decision follows the *current* disk content, not the
cached in-memory map. -/
theorem C6_guard_503_iff_disabled (w : World) (mem : LoaderMem) (name : String) :
    (((requirePluginEnabled w mem name).1).isSome = true ↔
      (isEnabledM w mem name).1 = false)
    ∧ (∀ e, (requirePluginEnabled w mem name).1 = some e →
        e.status_code = 503 ∧ ¬ e.status_code = 404
        ∧ e.detail = "Plugin '" ++ name ++ "' is disabled")
    ∧ ((isEnabledM w mem name).1 = true → (requirePluginEnabled w mem name).1 = none)
    ∧ (∀ t c, w.stateFile = some (t, c) → ¬ mem.state_mtime = some t →
        ((requirePluginEnabled w mem name).1 = none ↔
          dlookup (loadStateContent c) name = some true)) := by
  refine ⟨?_, ?_, ?_, ?_⟩
  · simp only [requirePluginEnabled, isEnabledM]
    cases hb : (dlookup (refreshStateFromDisk w mem).state name).getD false <;> simp [hb]
  · intro e he
    simp only [requirePluginEnabled, isEnabledM] at he
    cases hb : (dlookup (refreshStateFromDisk w mem).state name).getD false
    · rw [hb] at he
      simp at he
      rw [← he]
      refine ⟨rfl, by simp, rfl⟩
    · rw [hb] at he
      simp at he
  · intro hen
    simp only [isEnabledM] at hen
    simp only [requirePluginEnabled, isEnabledM, hen]
    simp
  · intro t c hw hne
    have hrefresh : (refreshStateFromDisk w mem).state = loadStateContent c := by
      simp only [refreshStateFromDisk, hw]
      rw [if_pos (Or.inr hne)]
    simp only [requirePluginEnabled, isEnabledM, hrefresh]
    cases hl : dlookup (loadStateContent c) name with
    | none => simp [hl]
    | some v => cases v <;> simp [hl]

/-- A world whose state file marks plugin `p` enabled. -/
def exW6 : World := { stateFile := some (5, some [("p", true)]), clock := 9 }

/-- A stale loader memory believing `p` is disabled. -/
def exMem6 : LoaderMem :=
  { state := [("p", false)], state_mtime := some 3, module_mtimes := [],
    records := [], sysModules := [] }

/-- Witness for `C6_guard_503_iff_disabled`: with stale memory and a changed
state file, the guard's decision follows the fresh disk content. -/
theorem C6_guard_503_iff_disabled_witness :
    exW6.stateFile = some (5, some [("p", true)])
    ∧ ¬ exMem6.state_mtime = some 5
    ∧ ((requirePluginEnabled exW6 exMem6 "p").1 = none ↔
        dlookup (loadStateContent (some [("p", true)])) "p" = some true) :=
  ⟨rfl, by decide,
    (C6_guard_503_iff_disabled exW6 exMem6 "p").2.2.2 5 (some [("p", true)]) rfl (by decide)⟩

theorem dlookup_map_val {α β : Type} (f : String → α → β) (d : List (String × α))
    (k : String) :
    dlookup (d.map fun p => (p.1, f p.1 p.2)) k = (dlookup d k).map (f k) := by
  induction d with
  | nil => simp [dlookup]
  | cons hd tl ih =>
    by_cases h : hd.1 = k
    · subst h
      simp [dlookup, ih]
    · simp only [List.map_cons, dlookup, if_neg h, ih]

/-- Well-formedness of the record table: each name maps to a record carrying
that name (maintained by every loader operation). -/
def RecNamesOk (recs : List (String × PluginRec)) : Prop :=
  ∀ n r, dlookup recs n = some r → r.name = n

theorem processDir_shape (dirPath : String) (acc : LoaderMem × List PluginRec)
    (d : FsDirEntry) (hwf : RecNamesOk (acc.1).records) :
    ∃ mem' rec, processDir dirPath acc d = (mem', acc.2 ++ [rec])
      ∧ rec.name = d.name
      ∧ (rec.error = none ∨ ∃ m, rec.error = some m ∧ rec.routers = [])
      ∧ (d.app = none → rec.error = some "app.py not found" ∧ rec.routers = [])
      ∧ RecNamesOk mem'.records := by
  have hwf' : ∀ rec : PluginRec, rec.name = d.name →
      RecNamesOk (dinsert (acc.1).records d.name rec) := by
    intro rec hname n r h
    rw [dlookup_dinsert] at h
    by_cases hn : n = d.name
    · rw [if_pos hn] at h
      rw [← Option.some.inj h, hname, hn]
    · rw [if_neg hn] at h
      exact hwf n r h
  cases happ : d.app with
  | none =>
    simp only [processDir, happ]
    exact ⟨_, _, rfl, rfl, Or.inr ⟨_, rfl, rfl⟩, fun _ => ⟨rfl, rfl⟩, hwf' _ rfl⟩
  | some appf =>
    cases hrec : dlookup (acc.1).records d.name with
    | some r =>
      have hrname : r.name = d.name := hwf d.name r hrec
      by_cases hhit : r.error = none ∧ r.module_name = mkModuleName dirPath d.name
          ∧ dlookup (acc.1).module_mtimes d.name = some appf.mtimeNs
      · simp only [processDir, happ, hrec]
        rw [if_pos hhit]
        exact ⟨_, _, rfl, hrname, Or.inl hhit.1, fun hc => Option.noConfusion hc, hwf' _ hrname⟩
      · cases hcont : appf.content with
        | routersOf rs =>
          simp only [processDir, happ, hrec, hcont]
          rw [if_neg hhit]
          exact ⟨_, _, rfl, rfl, Or.inl rfl, fun hc => Option.noConfusion hc, hwf' _ rfl⟩
        | raisesOn msg =>
          simp only [processDir, happ, hrec, hcont]
          rw [if_neg hhit]
          exact ⟨_, _, rfl, rfl, Or.inr ⟨msg, rfl, rfl⟩, fun hc => Option.noConfusion hc, hwf' _ rfl⟩
    | none =>
      cases hcont : appf.content with
      | routersOf rs =>
        simp only [processDir, happ, hrec, hcont]
        exact ⟨_, _, rfl, rfl, Or.inl rfl, fun hc => Option.noConfusion hc, hwf' _ rfl⟩
      | raisesOn msg =>
        simp only [processDir, happ, hrec, hcont]
        exact ⟨_, _, rfl, rfl, Or.inr ⟨msg, rfl, rfl⟩, fun hc => Option.noConfusion hc, hwf' _ rfl⟩

theorem dlookup_syncRecsEnabled (st : List (String × Bool))
    (recs : List (String × PluginRec)) (n : String) :
    dlookup (syncRecsEnabled st recs) n =
      (dlookup recs n).map fun rc =>
        { rc with enabled := (dlookup st n).getD false } := by
  induction recs with
  | nil => rfl
  | cons hd tl ih =>
    simp only [syncRecsEnabled, List.map_cons, dlookup] at *
    by_cases hn : hd.1 = n
    · rw [if_pos hn, if_pos hn, hn]
      rfl
    · rw [if_neg hn, if_neg hn, ih]

theorem syncRecsEnabled_RecNamesOk (st : List (String × Bool))
    (recs : List (String × PluginRec)) (hwf : RecNamesOk recs) :
    RecNamesOk (syncRecsEnabled st recs) := by
  intro n r h
  rw [dlookup_syncRecsEnabled] at h
  cases hl : dlookup recs n with
  | none => rw [hl] at h; cases h
  | some r0 =>
    rw [hl] at h
    have := Option.some.inj h
    rw [← this]
    exact hwf n r0 hl

theorem refresh_RecNamesOk (w : World) (mem : LoaderMem)
    (hwf : RecNamesOk mem.records) :
    RecNamesOk (refreshStateFromDisk w mem).records := by
  cases hsf : w.stateFile with
  | none =>
    simp only [refreshStateFromDisk, hsf]
    by_cases hne : mem.state ≠ []
    · rw [if_pos hne]
      exact syncRecsEnabled_RecNamesOk _ _ hwf
    · rw [if_neg hne]
      exact hwf
  | some tc =>
    obtain ⟨t, c⟩ := tc
    simp only [refreshStateFromDisk, hsf]
    by_cases hcond : mem.state_mtime = none ∨ ¬ mem.state_mtime = some t
    · rw [if_pos hcond]
      exact syncRecsEnabled_RecNamesOk _ _ hwf
    · rw [if_neg hcond]
      exact hwf

theorem foldl_processDir_props (dirPath : String) (l : List FsDirEntry)
    (acc : LoaderMem × List PluginRec) (hwf : RecNamesOk (acc.1).records) :
    (∃ tail, (l.foldl (processDir dirPath) acc).2 = acc.2 ++ tail
      ∧ tail.map PluginRec.name = l.map FsDirEntry.name
      ∧ (∀ r ∈ tail, r.error = none ∨ ∃ m, r.error = some m ∧ r.routers = [])
      ∧ (∀ d ∈ l, d.app = none → ∃ r ∈ tail, r.name = d.name ∧
          r.error = some "app.py not found" ∧ r.routers = []))
    ∧ RecNamesOk ((l.foldl (processDir dirPath) acc).1).records := by
  induction l generalizing acc with
  | nil =>
    refine ⟨⟨[], by simp, rfl, ?_, ?_⟩, hwf⟩
    · intro r hr; cases hr
    · intro d hd; cases hd
  | cons hd tl ih =>
    obtain ⟨mem', rec, heq, hname, hdich, hmiss, hwf'⟩ := processDir_shape dirPath acc hd hwf
    have hfold : (hd :: tl).foldl (processDir dirPath) acc =
        tl.foldl (processDir dirPath) (mem', acc.2 ++ [rec]) := by
      rw [List.foldl_cons, heq]
    obtain ⟨⟨tail', ht1, ht2, ht3, ht4⟩, hwfout⟩ :=
      ih (mem', acc.2 ++ [rec]) hwf'
    rw [hfold]
    refine ⟨⟨rec :: tail', ?_, ?_, ?_, ?_⟩, hwfout⟩
    · rw [ht1]; simp
    · simp only [List.map_cons, ht2, hname]
    · intro r hr
      rcases List.mem_cons.mp hr with hre | hrt
      · rw [hre]; exact hdich
      · exact ht3 r hrt
    · intro d hdm happ
      rcases List.mem_cons.mp hdm with hde | hdt
      · exact ⟨rec, List.mem_cons_self _ _, by rw [hname, hde], (hmiss (hde ▸ happ)).1,
          (hmiss (hde ▸ happ)).2⟩
      · obtain ⟨r, hrmem, hrp⟩ := ht4 d hdt happ
        exact ⟨r, List.mem_cons_of_mem _ hrmem, hrp⟩

/-- C7: a load pass never propagates a per-plugin load failure: the pass
returns exactly one record per discovered plugin directory, in order (so one
plugin's failure does not prevent the others from being processed); every
record is Loaded (`error = none`) or Failed (`error` set and `routers = []`);
and a missing entry unit yields the distinct Failed record
"app.py not found" with no routers. -/
theorem C7_load_isolation_dichotomy (dirPath : String) (fs : List FsDirEntry) (w : World) (mem : LoaderMem)
    (hwf : ∀ n r, dlookup mem.records n = some r → r.name = n) :
    ((loadPlugins dirPath fs w mem).2.2.map PluginRec.name =
      (discoveredDirs fs).map FsDirEntry.name)
    ∧ (∀ r ∈ (loadPlugins dirPath fs w mem).2.2,
        r.error = none ∨ ∃ m, r.error = some m ∧ r.routers = [])
    ∧ (∀ d ∈ discoveredDirs fs, d.app = none →
        ∃ r ∈ (loadPlugins dirPath fs w mem).2.2, r.name = d.name ∧
          r.error = some "app.py not found" ∧ r.routers = []) := by
  have hwf0 : RecNamesOk (refreshStateFromDisk w mem).records :=
    refresh_RecNamesOk w mem hwf
  obtain ⟨⟨tail, ht1, ht2, ht3, ht4⟩, _⟩ :=
    foldl_processDir_props dirPath (discoveredDirs fs) (refreshStateFromDisk w mem, []) hwf0
  have hout : (loadPlugins dirPath fs w mem).2.2 =
      ((discoveredDirs fs).foldl (processDir dirPath) (refreshStateFromDisk w mem, [])).2 := rfl
  rw [hout, ht1]
  simp only [List.nil_append]
  exact ⟨ht2, ht3, ht4⟩


/-- The empty loader memory. -/
def exMem0 : LoaderMem :=
  { state := [], state_mtime := none, module_mtimes := [], records := [],
    sysModules := [] }

/-- A plugins directory with a loadable plugin, a crashing plugin, and one
with no entry unit. -/
def exFs7 : List FsDirEntry :=
  [{ name := "ok", isDir := true,
     app := some { mtimeNs := 10, content := ModuleContent.routersOf [3] } },
   { name := "bad", isDir := true,
     app := some { mtimeNs := 11, content := ModuleContent.raisesOn "boom" } },
   { name := "noapp", isDir := true, app := none }]

/-- The world with no state file yet. -/
def exW7 : World := { stateFile := none, clock := 0 }

/-- Witness for `C7_load_isolation_dichotomy` on a concrete three-plugin
directory. -/
theorem C7_load_isolation_dichotomy_witness :
    (∀ n r, dlookup exMem0.records n = some r → r.name = n)
    ∧ (((loadPlugins "/p" exFs7 exW7 exMem0).2.2.map PluginRec.name =
        (discoveredDirs exFs7).map FsDirEntry.name)
      ∧ (∀ r ∈ (loadPlugins "/p" exFs7 exW7 exMem0).2.2,
          r.error = none ∨ ∃ m, r.error = some m ∧ r.routers = [])
      ∧ (∀ d ∈ discoveredDirs exFs7, d.app = none →
          ∃ r ∈ (loadPlugins "/p" exFs7 exW7 exMem0).2.2, r.name = d.name ∧
            r.error = some "app.py not found" ∧ r.routers = [])) :=
  ⟨fun _ _ h => Option.noConfusion h,
    C7_load_isolation_dichotomy "/p" exFs7 exW7 exMem0
      (fun _ _ h => Option.noConfusion h)⟩

theorem dlookup_derase_ne {α : Type} (d : List (String × α)) (k n : String)
    (h : ¬ n = k) : dlookup (derase d k) n = dlookup d n := by
  induction d with
  | nil => rfl
  | cons hd tl ih =>
    by_cases hh : hd.1 = k
    · simp only [derase, if_pos hh, dlookup]
      rw [if_neg (fun he : hd.1 = n => h (he ▸ hh))]
    · simp only [derase, if_neg hh, dlookup]
      by_cases hn : hd.1 = n
      · rw [if_pos hn, if_pos hn]
      · rw [if_neg hn, if_neg hn, ih]

theorem dlookup_derase_none {α : Type} (d : List (String × α)) (k n : String)
    (h : dlookup d n = none) : dlookup (derase d k) n = none := by
  induction d with
  | nil => rfl
  | cons hd tl ih =>
    simp only [dlookup] at h
    by_cases hn : hd.1 = n
    · rw [if_pos hn] at h; cases h
    · rw [if_neg hn] at h
      by_cases hh : hd.1 = k
      · simp only [derase, if_pos hh]
        exact h
      · simp only [derase, if_neg hh, dlookup, if_neg hn]
        exact ih h

theorem dkeys_derase_sublist {α : Type} (d : List (String × α)) (k : String) :
    (dkeys (derase d k)).Sublist (dkeys d) := by
  induction d with
  | nil => exact List.Sublist.refl _
  | cons hd tl ih =>
    by_cases hh : hd.1 = k
    · simp only [derase, if_pos hh, dkeys, List.map_cons]
      exact List.sublist_cons_self _ _
    · simp only [derase, if_neg hh, dkeys, List.map_cons]
      exact List.Sublist.cons₂ _ ih

theorem dlookup_derase_self {α : Type} (d : List (String × α)) (k : String)
    (hnd : (dkeys d).Nodup) : dlookup (derase d k) k = none := by
  induction d with
  | nil => rfl
  | cons hd tl ih =>
    simp only [dkeys, List.map_cons, List.nodup_cons] at hnd
    by_cases hh : hd.1 = k
    · simp only [derase, if_pos hh]
      subst hh
      cases hl : dlookup tl hd.1 with
      | none => rfl
      | some v =>
        exact absurd (mem_dkeys_of_dlookup tl hd.1 v hl) hnd.1
    · simp only [derase, if_neg hh, dlookup, if_neg hh]
      exact ih hnd.2

theorem dinsert_cons_eq {α : Type} (hd : String × α) (tl : List (String × α)) (v : α) :
    dinsert (hd :: tl) hd.1 v = (hd.1, v) :: tl := by
  simp [dinsert]

theorem dinsert_cons_ne {α : Type} (hd : String × α) (tl : List (String × α))
    (k : String) (v : α) (h : ¬ hd.1 = k) :
    dinsert (hd :: tl) k v = hd :: dinsert tl k v := by
  simp [dinsert, h]

theorem mem_dkeys_dinsert_iff {α : Type} (d : List (String × α)) (k n : String) (v : α) :
    n ∈ dkeys (dinsert d k v) ↔ n = k ∨ n ∈ dkeys d := by
  induction d with
  | nil => simp [dinsert, dkeys]
  | cons hd tl ih =>
    by_cases hh : hd.1 = k
    · subst hh
      rw [dinsert_cons_eq]
      simp only [dkeys, List.map_cons, List.mem_cons]
      tauto
    · rw [dinsert_cons_ne hd tl k v hh]
      simp only [dkeys, List.map_cons, List.mem_cons] at *
      rw [ih]
      tauto

theorem dkeys_dinsert_nodup {α : Type} (d : List (String × α)) (k : String) (v : α)
    (hnd : (dkeys d).Nodup) : (dkeys (dinsert d k v)).Nodup := by
  induction d with
  | nil => simp [dinsert, dkeys]
  | cons hd tl ih =>
    simp only [dkeys, List.map_cons, List.nodup_cons] at hnd
    by_cases hh : hd.1 = k
    · subst hh
      rw [dinsert_cons_eq]
      simp only [dkeys, List.map_cons, List.nodup_cons]
      exact hnd
    · rw [dinsert_cons_ne hd tl k v hh]
      simp only [dkeys, List.map_cons, List.nodup_cons]
      constructor
      · intro hmem
        rcases (mem_dkeys_dinsert_iff tl k hd.1 v).mp hmem with he | hm
        · exact hh he
        · exact hnd.1 hm
      · exact ih hnd.2

theorem fold_derase_lookup_notmem {α : Type} (ks : List String)
    (st : List (String × α)) (n : String) (h : n ∉ ks) :
    dlookup (ks.foldl (fun acc k => derase acc k) st) n = dlookup st n := by
  induction ks generalizing st with
  | nil => rfl
  | cons k tl ih =>
    simp only [List.mem_cons, not_or] at h
    simp only [List.foldl_cons]
    rw [ih (derase st k) h.2, dlookup_derase_ne st k n h.1]

theorem fold_derase_lookup_none {α : Type} (ks : List String)
    (st : List (String × α)) (n : String) (h : dlookup st n = none) :
    dlookup (ks.foldl (fun acc k => derase acc k) st) n = none := by
  induction ks generalizing st with
  | nil => exact h
  | cons k tl ih =>
    simp only [List.foldl_cons]
    exact ih (derase st k) (dlookup_derase_none st k n h)

theorem fold_derase_nodup {α : Type} (ks : List String) (st : List (String × α))
    (hnd : (dkeys st).Nodup) :
    (dkeys (ks.foldl (fun acc k => derase acc k) st)).Nodup := by
  induction ks generalizing st with
  | nil => exact hnd
  | cons k tl ih =>
    simp only [List.foldl_cons]
    exact ih (derase st k) ((dkeys_derase_sublist st k).nodup hnd)

theorem fold_derase_lookup_mem {α : Type} (ks : List String) :
    ∀ (st : List (String × α)) (n : String), n ∈ ks → (dkeys st).Nodup →
      dlookup (ks.foldl (fun acc k => derase acc k) st) n = none := by
  induction ks with
  | nil => intro st n h _; cases h
  | cons k tl ih =>
    intro st n h hnd
    simp only [List.foldl_cons]
    by_cases hn : n = k
    · subst hn
      exact fold_derase_lookup_none tl (derase st n) n (dlookup_derase_self st n hnd)
    · rcases List.mem_cons.mp h with he | hm
      · exact absurd he hn
      · exact ih (derase st k) n hm ((dkeys_derase_sublist st k).nodup hnd)

theorem dlookup_isSome_iff_mem_dkeys {α : Type} (d : List (String × α)) (n : String) :
    (dlookup d n).isSome = true ↔ n ∈ dkeys d := by
  induction d with
  | nil => simp [dlookup, dkeys]
  | cons hd tl ih =>
    simp only [dlookup, dkeys, List.map_cons, List.mem_cons]
    by_cases hh : hd.1 = n
    · rw [if_pos hh]
      simp [hh.symm]
    · rw [if_neg hh]
      rw [ih]
      simp only [dkeys]
      constructor
      · exact Or.inr
      · rintro (he | hm)
        · exact absurd he.symm hh
        · exact hm

theorem stepAdd_fold_flag_true (recs : List PluginRec) (st : List (String × Bool)) :
    (recs.foldl (fun (acc : List (String × Bool) × Bool) (r : PluginRec) =>
      if (dlookup acc.1 r.name).isSome then acc
      else (dinsert acc.1 r.name false, true)) (st, true)).2 = true := by
  induction recs generalizing st with
  | nil => rfl
  | cons r tl ih =>
    simp only [List.foldl_cons]
    by_cases hp : (dlookup st r.name).isSome
    · rw [if_pos hp]
      exact ih st
    · rw [if_neg hp]
      exact ih _

theorem stepAdd_fold_false (recs : List PluginRec) (st : List (String × Bool))
    (hout : (recs.foldl (fun (acc : List (String × Bool) × Bool) (r : PluginRec) =>
      if (dlookup acc.1 r.name).isSome then acc
      else (dinsert acc.1 r.name false, true)) (st, false)).2 = false) :
    (recs.foldl (fun (acc : List (String × Bool) × Bool) (r : PluginRec) =>
      if (dlookup acc.1 r.name).isSome then acc
      else (dinsert acc.1 r.name false, true)) (st, false)).1 = st
    ∧ ∀ r ∈ recs, (dlookup st r.name).isSome = true := by
  induction recs generalizing st with
  | nil => exact ⟨rfl, fun r hr => absurd hr (List.not_mem_nil r)⟩
  | cons r tl ih =>
    simp only [List.foldl_cons] at hout ⊢
    by_cases hp : (dlookup st r.name).isSome
    · rw [if_pos hp] at hout ⊢
      obtain ⟨h1, h2⟩ := ih st hout
      refine ⟨h1, ?_⟩
      intro r' hr'
      rcases List.mem_cons.mp hr' with he | hm
      · rw [he]; exact hp
      · exact h2 r' hm
    · rw [if_neg hp] at hout
      rw [stepAdd_fold_flag_true tl _] at hout
      cases hout

theorem stepAdd_fold_isSome_iff (recs : List PluginRec) (st : List (String × Bool))
    (flag : Bool) (n : String) :
    ((dlookup (recs.foldl (fun (acc : List (String × Bool) × Bool) (r : PluginRec) =>
      if (dlookup acc.1 r.name).isSome then acc
      else (dinsert acc.1 r.name false, true)) (st, flag)).1 n).isSome = true) ↔
    ((dlookup st n).isSome = true ∨ n ∈ recs.map PluginRec.name) := by
  induction recs generalizing st flag with
  | nil => simp
  | cons r tl ih =>
    simp only [List.foldl_cons, List.map_cons, List.mem_cons]
    by_cases hp : (dlookup st r.name).isSome
    · rw [if_pos hp, ih]
      constructor
      · rintro (hl | hm)
        · exact Or.inl hl
        · exact Or.inr (Or.inr hm)
      · rintro (hl | he | hm)
        · exact Or.inl hl
        · subst he; exact Or.inl hp
        · exact Or.inr hm
    · rw [if_neg hp, ih]
      rw [dlookup_dinsert]
      constructor
      · rintro (hl | hm)
        · by_cases hn : n = r.name
          · exact Or.inr (Or.inl hn)
          · rw [if_neg hn] at hl
            exact Or.inl hl
        · exact Or.inr (Or.inr hm)
      · rintro (hl | he | hm)
        · by_cases hn : n = r.name
          · rw [if_pos hn]; exact Or.inl rfl
          · rw [if_neg hn]; exact Or.inl hl
        · rw [if_pos he]; exact Or.inl rfl
        · exact Or.inr hm

theorem stepAdd_fold_preserve_some (recs : List PluginRec) (st : List (String × Bool))
    (flag : Bool) (n : String) (b : Bool) (h : dlookup st n = some b) :
    dlookup (recs.foldl (fun (acc : List (String × Bool) × Bool) (r : PluginRec) =>
      if (dlookup acc.1 r.name).isSome then acc
      else (dinsert acc.1 r.name false, true)) (st, flag)).1 n = some b := by
  induction recs generalizing st flag with
  | nil => exact h
  | cons r tl ih =>
    simp only [List.foldl_cons]
    by_cases hp : (dlookup st r.name).isSome
    · rw [if_pos hp]
      exact ih st flag h
    · rw [if_neg hp]
      have hn : ¬ n = r.name := fun he => hp (by rw [← he, h]; rfl)
      apply ih
      rw [dlookup_dinsert, if_neg hn]
      exact h

theorem stepAdd_fold_new_false (recs : List PluginRec) (st : List (String × Bool))
    (flag : Bool) (n : String) (h0 : dlookup st n = none)
    (hm : n ∈ recs.map PluginRec.name) :
    dlookup (recs.foldl (fun (acc : List (String × Bool) × Bool) (r : PluginRec) =>
      if (dlookup acc.1 r.name).isSome then acc
      else (dinsert acc.1 r.name false, true)) (st, flag)).1 n = some false := by
  induction recs generalizing st flag with
  | nil => cases hm
  | cons r tl ih =>
    simp only [List.foldl_cons]
    simp only [List.map_cons, List.mem_cons] at hm
    by_cases hp : (dlookup st r.name).isSome
    · rw [if_pos hp]
      rcases hm with he | hmm
      · subst he
        rw [h0] at hp
        exact Bool.noConfusion hp
      · exact ih st flag h0 hmm
    · rw [if_neg hp]
      by_cases hn : n = r.name
      · subst hn
        apply stepAdd_fold_preserve_some
        rw [dlookup_dinsert, if_pos rfl]
      · rcases hm with he | hmm
        · exact absurd he hn
        · apply ih
          · rw [dlookup_dinsert, if_neg hn]
            exact h0
          · exact hmm

theorem stepAdd_fold_nodup (recs : List PluginRec) (st : List (String × Bool))
    (flag : Bool) (hnd : (dkeys st).Nodup) :
    (dkeys (recs.foldl (fun (acc : List (String × Bool) × Bool) (r : PluginRec) =>
      if (dlookup acc.1 r.name).isSome then acc
      else (dinsert acc.1 r.name false, true)) (st, flag)).1).Nodup := by
  induction recs generalizing st flag with
  | nil => exact hnd
  | cons r tl ih =>
    simp only [List.foldl_cons]
    by_cases hp : (dlookup st r.name).isSome
    · rw [if_pos hp]
      exact ih st flag hnd
    · rw [if_neg hp]
      exact ih _ _ (dkeys_dinsert_nodup st r.name false hnd)

theorem afterDel_facts (records : List PluginRec) (st : List (String × Bool))
    (hnd : (dkeys st).Nodup) :
    (∀ n, ((dlookup (((dkeys (records.foldl
          (fun (acc : List (String × Bool) × Bool) (r : PluginRec) =>
            if (dlookup acc.1 r.name).isSome then acc
            else (dinsert acc.1 r.name false, true)) (st, false)).1).filter fun k =>
              !((records.map PluginRec.name).contains k)).foldl
          (fun s k => derase s k)
          (records.foldl (fun (acc : List (String × Bool) × Bool) (r : PluginRec) =>
            if (dlookup acc.1 r.name).isSome then acc
            else (dinsert acc.1 r.name false, true)) (st, false)).1) n).isSome = true) ↔
        n ∈ records.map PluginRec.name)
    ∧ (∀ n, dlookup st n = none → n ∈ records.map PluginRec.name →
        dlookup (((dkeys (records.foldl
          (fun (acc : List (String × Bool) × Bool) (r : PluginRec) =>
            if (dlookup acc.1 r.name).isSome then acc
            else (dinsert acc.1 r.name false, true)) (st, false)).1).filter fun k =>
              !((records.map PluginRec.name).contains k)).foldl
          (fun s k => derase s k)
          (records.foldl (fun (acc : List (String × Bool) × Bool) (r : PluginRec) =>
            if (dlookup acc.1 r.name).isSome then acc
            else (dinsert acc.1 r.name false, true)) (st, false)).1) n = some false)
    ∧ (dkeys (((dkeys (records.foldl
          (fun (acc : List (String × Bool) × Bool) (r : PluginRec) =>
            if (dlookup acc.1 r.name).isSome then acc
            else (dinsert acc.1 r.name false, true)) (st, false)).1).filter fun k =>
              !((records.map PluginRec.name).contains k)).foldl
          (fun s k => derase s k)
          (records.foldl (fun (acc : List (String × Bool) × Bool) (r : PluginRec) =>
            if (dlookup acc.1 r.name).isSome then acc
            else (dinsert acc.1 r.name false, true)) (st, false)).1)).Nodup := by
  have hndAdd : (dkeys (records.foldl
      (fun (acc : List (String × Bool) × Bool) (r : PluginRec) =>
        if (dlookup acc.1 r.name).isSome then acc
        else (dinsert acc.1 r.name false, true)) (st, false)).1).Nodup :=
    stepAdd_fold_nodup records st false hnd
  have hnotstale : ∀ n, n ∈ records.map PluginRec.name →
      n ∉ (dkeys (records.foldl
        (fun (acc : List (String × Bool) × Bool) (r : PluginRec) =>
          if (dlookup acc.1 r.name).isSome then acc
          else (dinsert acc.1 r.name false, true)) (st, false)).1).filter
        (fun k => !((records.map PluginRec.name).contains k)) := by
    intro n hm hin
    have := List.of_mem_filter hin
    rw [Bool.not_eq_true'] at this
    simp only [List.contains] at this
    rw [← List.elem_iff] at hm
    rw [hm] at this
    cases this
  refine ⟨?_, ?_, ?_⟩
  · intro n
    constructor
    · intro hsome
      by_cases hm : n ∈ records.map PluginRec.name
      · exact hm
      · exfalso
        by_cases hk : n ∈ dkeys (records.foldl
            (fun (acc : List (String × Bool) × Bool) (r : PluginRec) =>
              if (dlookup acc.1 r.name).isSome then acc
              else (dinsert acc.1 r.name false, true)) (st, false)).1
        · have hstale : n ∈ (dkeys (records.foldl
              (fun (acc : List (String × Bool) × Bool) (r : PluginRec) =>
                if (dlookup acc.1 r.name).isSome then acc
                else (dinsert acc.1 r.name false, true)) (st, false)).1).filter
              (fun k => !((records.map PluginRec.name).contains k)) := by
            apply List.mem_filter_of_mem hk
            rw [Bool.not_eq_true']
            simp only [List.contains]
            rw [← Bool.not_eq_true]
            intro hc
            exact hm (List.elem_iff.mp hc)
          rw [fold_derase_lookup_mem _ _ n hstale hndAdd] at hsome
          cases hsome
        · rw [← dlookup_isSome_iff_mem_dkeys] at hk
          rw [fold_derase_lookup_none _ _ n (Option.not_isSome_iff_eq_none.mp hk)] at hsome
          cases hsome
    · intro hm
      rw [fold_derase_lookup_notmem _ _ n (hnotstale n hm)]
      rw [stepAdd_fold_isSome_iff]
      exact Or.inr hm
  · intro n h0 hm
    rw [fold_derase_lookup_notmem _ _ n (hnotstale n hm)]
    exact stepAdd_fold_new_false records st false n h0 hm
  · exact fold_derase_nodup _ _ hndAdd

theorem syncPluginStates_spec (w : World) (mem : LoaderMem) (records : List PluginRec)
    (hnd : (dkeys mem.state).Nodup) :
    (∀ n, ((dlookup ((syncPluginStates w mem records).2).state n).isSome = true) ↔
        n ∈ records.map PluginRec.name)
    ∧ (∀ n, dlookup mem.state n = none → n ∈ records.map PluginRec.name →
        dlookup ((syncPluginStates w mem records).2).state n = some false)
    ∧ (dkeys ((syncPluginStates w mem records).2).state).Nodup
    ∧ (((syncPluginStates w mem records).1 = w
        ∧ ((syncPluginStates w mem records).2).state = mem.state
        ∧ ((syncPluginStates w mem records).2).state_mtime = mem.state_mtime)
      ∨ (∃ t, ((syncPluginStates w mem records).1).stateFile =
            some (t, some ((syncPluginStates w mem records).2).state)
          ∧ ((syncPluginStates w mem records).2).state_mtime = some t)) := by
  obtain ⟨f1, f2, f3⟩ := afterDel_facts records mem.state hnd
  simp only [syncPluginStates]
  by_cases hc : ((records.foldl
      (fun (acc : List (String × Bool) × Bool) (r : PluginRec) =>
        if (dlookup acc.1 r.name).isSome then acc
        else (dinsert acc.1 r.name false, true)) (mem.state, false)).2 ||
        !(((dkeys (records.foldl
          (fun (acc : List (String × Bool) × Bool) (r : PluginRec) =>
            if (dlookup acc.1 r.name).isSome then acc
            else (dinsert acc.1 r.name false, true)) (mem.state, false)).1).filter fun k =>
              !((records.map PluginRec.name).contains k)).isEmpty)) = true
      ∨ w.stateFile = none
  · rw [if_pos hc]
    exact ⟨f1, f2, f3, Or.inr ⟨w.clock, rfl, rfl⟩⟩
  · rw [if_neg hc]
    push_neg at hc
    obtain ⟨hc1, hc2⟩ := hc
    rw [← Bool.eq_false_iff, Bool.or_eq_false_iff] at hc1
    obtain ⟨hadd2, hstale⟩ := hc1
    simp only [Bool.not_eq_false'] at hstale
    have hstalenil : ((dkeys (records.foldl
        (fun (acc : List (String × Bool) × Bool) (r : PluginRec) =>
          if (dlookup acc.1 r.name).isSome then acc
          else (dinsert acc.1 r.name false, true)) (mem.state, false)).1).filter fun k =>
            !((records.map PluginRec.name).contains k)) = [] := by
      rwa [List.isEmpty_iff] at hstale
    have haddeq := (stepAdd_fold_false records mem.state hadd2).1
    refine ⟨f1, f2, f3, Or.inl ⟨rfl, ?_, rfl⟩⟩
    simp only [hstalenil, List.foldl_nil]
    exact haddeq

/-- The in-memory map is consistent with the state file it last saw: when the
last-seen fingerprint matches the file's, the in-memory map equals the parsed
file content. -/
def Synced (w : World) (mem : LoaderMem) : Prop :=
  ∀ t c, mem.state_mtime = some t → w.stateFile = some (t, c) →
    mem.state = loadStateContent c

theorem refresh_sync_state (w : World) (mem : LoaderMem) (hs : Synced w mem) :
    (refreshStateFromDisk w mem).state = loadStateW w := by
  cases hsf : w.stateFile with
  | none =>
    simp only [refreshStateFromDisk, hsf, loadStateW]
    by_cases hne : mem.state ≠ []
    · rw [if_pos hne]
    · rw [if_neg hne]
      push_neg at hne
      exact hne
  | some tc =>
    obtain ⟨t, c⟩ := tc
    simp only [refreshStateFromDisk, hsf, loadStateW]
    by_cases hcond : mem.state_mtime = none ∨ ¬ mem.state_mtime = some t
    · rw [if_pos hcond]
    · rw [if_neg hcond]
      push_neg at hcond
      exact hs t c hcond.2 hsf

theorem refresh_sync_mtime (w : World) (mem : LoaderMem) :
    (refreshStateFromDisk w mem).state_mtime = stateFileMtime w := by
  cases hsf : w.stateFile with
  | none =>
    simp only [refreshStateFromDisk, hsf, stateFileMtime]
  | some tc =>
    obtain ⟨t, c⟩ := tc
    simp only [refreshStateFromDisk, hsf, stateFileMtime]
    by_cases hcond : mem.state_mtime = none ∨ ¬ mem.state_mtime = some t
    · rw [if_pos hcond]
    · rw [if_neg hcond]
      push_neg at hcond
      exact hcond.2

theorem refresh_nodup (w : World) (mem : LoaderMem)
    (hndm : (dkeys mem.state).Nodup)
    (hndw : ∀ t m, w.stateFile = some (t, some m) → (dkeys m).Nodup) :
    (dkeys (refreshStateFromDisk w mem).state).Nodup := by
  cases hsf : w.stateFile with
  | none =>
    simp only [refreshStateFromDisk, hsf]
    by_cases hne : mem.state ≠ []
    · rw [if_pos hne]
      exact List.nodup_nil
    · rw [if_neg hne]
      exact hndm
  | some tc =>
    obtain ⟨t, c⟩ := tc
    simp only [refreshStateFromDisk, hsf]
    by_cases hcond : mem.state_mtime = none ∨ ¬ mem.state_mtime = some t
    · rw [if_pos hcond]
      cases c with
      | none => exact List.nodup_nil
      | some m => exact hndw t m hsf
    · rw [if_neg hcond]
      exact hndm

theorem processDir_state_eq (dirPath : String) (acc : LoaderMem × List PluginRec)
    (d : FsDirEntry) :
    ((processDir dirPath acc d).1).state = (acc.1).state
    ∧ ((processDir dirPath acc d).1).state_mtime = (acc.1).state_mtime := by
  cases happ : d.app with
  | none =>
    simp only [processDir, happ]
    exact ⟨by trivial, by trivial⟩
  | some appf =>
    cases hrec : dlookup (acc.1).records d.name with
    | some r =>
      by_cases hhit : r.error = none ∧ r.module_name = mkModuleName dirPath d.name
          ∧ dlookup (acc.1).module_mtimes d.name = some appf.mtimeNs
      · simp only [processDir, happ, hrec]
        rw [if_pos hhit]
        exact ⟨by trivial, by trivial⟩
      · cases hcont : appf.content with
        | routersOf rs =>
          simp only [processDir, happ, hrec, hcont]
          rw [if_neg hhit]
          exact ⟨by trivial, by trivial⟩
        | raisesOn msg =>
          simp only [processDir, happ, hrec, hcont]
          rw [if_neg hhit]
          exact ⟨by trivial, by trivial⟩
    | none =>
      cases hcont : appf.content with
      | routersOf rs =>
        simp only [processDir, happ, hrec, hcont]
        exact ⟨by trivial, by trivial⟩
      | raisesOn msg =>
        simp only [processDir, happ, hrec, hcont]
        exact ⟨by trivial, by trivial⟩

theorem foldl_processDir_state_eq (dirPath : String) (l : List FsDirEntry)
    (acc : LoaderMem × List PluginRec) :
    ((l.foldl (processDir dirPath) acc).1).state = (acc.1).state
    ∧ ((l.foldl (processDir dirPath) acc).1).state_mtime = (acc.1).state_mtime := by
  induction l generalizing acc with
  | nil => exact ⟨rfl, rfl⟩
  | cons hd tl ih =>
    simp only [List.foldl_cons]
    obtain ⟨h1, h2⟩ := ih (processDir dirPath acc hd)
    obtain ⟨g1, g2⟩ := processDir_state_eq dirPath acc hd
    exact ⟨h1.trans g1, h2.trans g2⟩

theorem dropStale_state_eq (mem : LoaderMem) (name : String) :
    (dropStale mem name).state = mem.state
    ∧ (dropStale mem name).state_mtime = mem.state_mtime := by
  simp only [dropStale]
  cases dlookup mem.records name <;> exact ⟨rfl, rfl⟩

theorem foldl_dropStale_state_eq (ks : List String) (mem : LoaderMem) :
    ((ks.foldl dropStale mem)).state = mem.state
    ∧ ((ks.foldl dropStale mem)).state_mtime = mem.state_mtime := by
  induction ks generalizing mem with
  | nil => exact ⟨rfl, rfl⟩
  | cons k tl ih =>
    simp only [List.foldl_cons]
    obtain ⟨h1, h2⟩ := ih (dropStale mem k)
    obtain ⟨g1, g2⟩ := dropStale_state_eq mem k
    exact ⟨h1.trans g1, h2.trans g2⟩

/-- C4: after every completed load pass, starting from a memory consistent
with the state file, the persisted enabled-state map (and the in-memory map)
has exactly one entry per discovered plugin and no others: discovered plugins
missing from the map gain a default `false` entry, entries for undiscovered
plugins are deleted, the map's keys are duplicate-free, and consistency with
the state file is re-established. -/
theorem C4_state_sync (dirPath : String) (fs : List FsDirEntry) (w : World) (mem : LoaderMem)
    (hs : Synced w mem)
    (hwf : ∀ n r, dlookup mem.records n = some r → r.name = n)
    (hndm : (dkeys mem.state).Nodup)
    (hndw : ∀ t m, w.stateFile = some (t, some m) → (dkeys m).Nodup) :
    (∀ n, ((dlookup (loadStateW (loadPlugins dirPath fs w mem).1) n).isSome = true) ↔
        n ∈ (discoveredDirs fs).map FsDirEntry.name)
    ∧ (∀ n, ((dlookup ((loadPlugins dirPath fs w mem).2.1).state n).isSome = true) ↔
        n ∈ (discoveredDirs fs).map FsDirEntry.name)
    ∧ (∀ n, n ∈ (discoveredDirs fs).map FsDirEntry.name →
        dlookup (loadStateW w) n = none →
        dlookup ((loadPlugins dirPath fs w mem).2.1).state n = some false)
    ∧ (dkeys ((loadPlugins dirPath fs w mem).2.1).state).Nodup
    ∧ Synced (loadPlugins dirPath fs w mem).1 (loadPlugins dirPath fs w mem).2.1 := by
  have hmem0state := refresh_sync_state w mem hs
  have hmem0mtime := refresh_sync_mtime w mem
  have hmem0nodup := refresh_nodup w mem hndm hndw
  have hwf0 : RecNamesOk (refreshStateFromDisk w mem).records := refresh_RecNamesOk w mem hwf
  obtain ⟨⟨tail, ht1, ht2, ht3, ht4⟩, _⟩ :=
    foldl_processDir_props dirPath (discoveredDirs fs) (refreshStateFromDisk w mem, []) hwf0
  have hnames : ((discoveredDirs fs).foldl (processDir dirPath)
      (refreshStateFromDisk w mem, [])).2.map PluginRec.name =
      (discoveredDirs fs).map FsDirEntry.name := by
    rw [ht1]
    simpa using ht2
  have hstates := foldl_processDir_state_eq dirPath (discoveredDirs fs)
    (refreshStateFromDisk w mem, [])
  have hdrop := foldl_dropStale_state_eq
    ((dkeys ((discoveredDirs fs).foldl (processDir dirPath)
      (refreshStateFromDisk w mem, [])).1.records).filter fun n =>
        !(((discoveredDirs fs).map FsDirEntry.name).contains n))
    ((discoveredDirs fs).foldl (processDir dirPath) (refreshStateFromDisk w mem, [])).1
  have hm2s : (((dkeys ((discoveredDirs fs).foldl (processDir dirPath)
      (refreshStateFromDisk w mem, [])).1.records).filter fun n =>
        !(((discoveredDirs fs).map FsDirEntry.name).contains n)).foldl dropStale
      ((discoveredDirs fs).foldl (processDir dirPath)
        (refreshStateFromDisk w mem, [])).1).state = loadStateW w := by
    rw [hdrop.1, hstates.1, hmem0state]
  have hm2t : (((dkeys ((discoveredDirs fs).foldl (processDir dirPath)
      (refreshStateFromDisk w mem, [])).1.records).filter fun n =>
        !(((discoveredDirs fs).map FsDirEntry.name).contains n)).foldl dropStale
      ((discoveredDirs fs).foldl (processDir dirPath)
        (refreshStateFromDisk w mem, [])).1).state_mtime = stateFileMtime w := by
    rw [hdrop.2, hstates.2, hmem0mtime]
  have hm2nodup : (dkeys ((((dkeys ((discoveredDirs fs).foldl (processDir dirPath)
      (refreshStateFromDisk w mem, [])).1.records).filter fun n =>
        !(((discoveredDirs fs).map FsDirEntry.name).contains n)).foldl dropStale
      ((discoveredDirs fs).foldl (processDir dirPath)
        (refreshStateFromDisk w mem, [])).1).state)).Nodup := by
    rw [hdrop.1, hstates.1]
    exact hmem0nodup
  obtain ⟨s1, s2, s3, s4⟩ := syncPluginStates_spec w
    ((((dkeys ((discoveredDirs fs).foldl (processDir dirPath)
      (refreshStateFromDisk w mem, [])).1.records).filter fun n =>
        !(((discoveredDirs fs).map FsDirEntry.name).contains n)).foldl dropStale
      ((discoveredDirs fs).foldl (processDir dirPath)
        (refreshStateFromDisk w mem, [])).1))
    (((discoveredDirs fs).foldl (processDir dirPath)
      (refreshStateFromDisk w mem, [])).2) hm2nodup
  rw [hnames] at s1 s2
  refine ⟨?_, ?_, ?_, ?_, ?_⟩
  · intro n
    rcases s4 with ⟨hw, hst, hmt⟩ | ⟨t, hsf, hmt⟩
    · rw [show (loadPlugins dirPath fs w mem).1 = w from hw]
      rw [← hm2s, ← hst]
      exact s1 n
    · have : loadStateW (loadPlugins dirPath fs w mem).1 =
          ((loadPlugins dirPath fs w mem).2.1).state := by
        simp only [loadStateW]
        rw [show (loadPlugins dirPath fs w mem).1.stateFile = _ from hsf]
        rfl
      rw [this]
      exact s1 n
  · exact s1
  · intro n hmem hnone
    apply s2 n
    · rw [hm2s]
      exact hnone
    · exact hmem
  · exact s3
  · show Synced (syncPluginStates w
        ((((dkeys ((discoveredDirs fs).foldl (processDir dirPath)
          (refreshStateFromDisk w mem, [])).1.records).filter fun n =>
            !(((discoveredDirs fs).map FsDirEntry.name).contains n)).foldl dropStale
          ((discoveredDirs fs).foldl (processDir dirPath)
            (refreshStateFromDisk w mem, [])).1))
        (((discoveredDirs fs).foldl (processDir dirPath)
          (refreshStateFromDisk w mem, [])).2)).1
      (syncPluginStates w
        ((((dkeys ((discoveredDirs fs).foldl (processDir dirPath)
          (refreshStateFromDisk w mem, [])).1.records).filter fun n =>
            !(((discoveredDirs fs).map FsDirEntry.name).contains n)).foldl dropStale
          ((discoveredDirs fs).foldl (processDir dirPath)
            (refreshStateFromDisk w mem, [])).1))
        (((discoveredDirs fs).foldl (processDir dirPath)
          (refreshStateFromDisk w mem, [])).2)).2
    intro t c hmt hsf
    rcases s4 with ⟨hw, hst, hmt0⟩ | ⟨t0, hsf0, hmt0⟩
    · rw [hw] at hsf
      rw [hst, hm2s]
      simp only [loadStateW, hsf]
    · rw [hmt0] at hmt
      have ht : t0 = t := Option.some.inj hmt
      rw [← ht] at hsf
      rw [hsf0] at hsf
      have hc := (Prod.mk.injEq _ _ _ _).mp (Option.some.inj hsf)
      rw [← hc.2]
      rfl


/-- Witness for `C4_state_sync` on a concrete three-plugin directory with no
prior state file. -/
theorem C4_state_sync_witness :
    Synced exW7 exMem0
    ∧ (∀ n r, dlookup exMem0.records n = some r → r.name = n)
    ∧ (dkeys exMem0.state).Nodup
    ∧ (∀ t m, exW7.stateFile = some (t, some m) → (dkeys m).Nodup)
    ∧ ((∀ n, ((dlookup (loadStateW (loadPlugins "/p" exFs7 exW7 exMem0).1) n).isSome =
          true) ↔ n ∈ (discoveredDirs exFs7).map FsDirEntry.name)
      ∧ (∀ n, ((dlookup ((loadPlugins "/p" exFs7 exW7 exMem0).2.1).state n).isSome =
          true) ↔ n ∈ (discoveredDirs exFs7).map FsDirEntry.name)
      ∧ (∀ n, n ∈ (discoveredDirs exFs7).map FsDirEntry.name →
          dlookup (loadStateW exW7) n = none →
          dlookup ((loadPlugins "/p" exFs7 exW7 exMem0).2.1).state n = some false)
      ∧ (dkeys ((loadPlugins "/p" exFs7 exW7 exMem0).2.1).state).Nodup
      ∧ Synced (loadPlugins "/p" exFs7 exW7 exMem0).1
          (loadPlugins "/p" exFs7 exW7 exMem0).2.1) :=
  ⟨fun _ _ _ hsf => Option.noConfusion hsf,
    fun _ _ h => Option.noConfusion h,
    List.nodup_nil,
    fun _ _ h => Option.noConfusion h,
    C4_state_sync "/p" exFs7 exW7 exMem0
      (fun _ _ _ hsf => Option.noConfusion hsf)
      (fun _ _ h => Option.noConfusion h)
      List.nodup_nil
      (fun _ _ h => Option.noConfusion h)⟩

theorem pluginRec_eta (r : PluginRec) :
    ({ r with enabled := r.enabled, module_mtime_ns := r.module_mtime_ns } : PluginRec) = r := by
  cases r
  rfl

theorem processDir_other (dirPath : String) (acc : LoaderMem × List PluginRec)
    (d : FsDirEntry) (n : String) (hn : ¬ n = d.name) :
    dlookup ((processDir dirPath acc d).1).records n = dlookup (acc.1).records n
    ∧ dlookup ((processDir dirPath acc d).1).module_mtimes n =
      dlookup (acc.1).module_mtimes n := by
  cases happ : d.app with
  | none =>
    simp only [processDir, happ]
    exact ⟨dlookup_dinsert_ne _ _ _ _ hn, dlookup_derase_ne _ _ _ hn⟩
  | some appf =>
    cases hrec : dlookup (acc.1).records d.name with
    | some r =>
      by_cases hhit : r.error = none ∧ r.module_name = mkModuleName dirPath d.name
          ∧ dlookup (acc.1).module_mtimes d.name = some appf.mtimeNs
      · simp only [processDir, happ, hrec]
        rw [if_pos hhit]
        exact ⟨dlookup_dinsert_ne _ _ _ _ hn, rfl⟩
      · cases hcont : appf.content with
        | routersOf rs =>
          simp only [processDir, happ, hrec, hcont]
          rw [if_neg hhit]
          exact ⟨dlookup_dinsert_ne _ _ _ _ hn, dlookup_dinsert_ne _ _ _ _ hn⟩
        | raisesOn msg =>
          simp only [processDir, happ, hrec, hcont]
          rw [if_neg hhit]
          exact ⟨dlookup_dinsert_ne _ _ _ _ hn, dlookup_dinsert_ne _ _ _ _ hn⟩
    | none =>
      cases hcont : appf.content with
      | routersOf rs =>
        simp only [processDir, happ, hrec, hcont]
        exact ⟨dlookup_dinsert_ne _ _ _ _ hn, dlookup_dinsert_ne _ _ _ _ hn⟩
      | raisesOn msg =>
        simp only [processDir, happ, hrec, hcont]
        exact ⟨dlookup_dinsert_ne _ _ _ _ hn, dlookup_dinsert_ne _ _ _ _ hn⟩

theorem foldl_processDir_other (dirPath : String) (l : List FsDirEntry)
    (acc : LoaderMem × List PluginRec) (n : String)
    (hn : n ∉ l.map FsDirEntry.name) :
    dlookup ((l.foldl (processDir dirPath) acc).1).records n = dlookup (acc.1).records n
    ∧ dlookup ((l.foldl (processDir dirPath) acc).1).module_mtimes n =
      dlookup (acc.1).module_mtimes n := by
  induction l generalizing acc with
  | nil => exact ⟨rfl, rfl⟩
  | cons hd tl ih =>
    simp only [List.map_cons, List.mem_cons, not_or] at hn
    simp only [List.foldl_cons]
    obtain ⟨h1, h2⟩ := ih (processDir dirPath acc hd) hn.2
    obtain ⟨g1, g2⟩ := processDir_other dirPath acc hd n hn.1
    exact ⟨h1.trans g1, h2.trans g2⟩

theorem dropStale_other (mem : LoaderMem) (k n : String) (hn : ¬ n = k) :
    dlookup (dropStale mem k).records n = dlookup mem.records n
    ∧ dlookup (dropStale mem k).module_mtimes n = dlookup mem.module_mtimes n := by
  simp only [dropStale]
  cases dlookup mem.records k <;>
    exact ⟨dlookup_derase_ne _ _ _ hn, dlookup_derase_ne _ _ _ hn⟩

theorem foldl_dropStale_other (ks : List String) (mem : LoaderMem) (n : String)
    (hn : n ∉ ks) :
    dlookup ((ks.foldl dropStale mem)).records n = dlookup mem.records n
    ∧ dlookup ((ks.foldl dropStale mem)).module_mtimes n = dlookup mem.module_mtimes n := by
  induction ks generalizing mem with
  | nil => exact ⟨rfl, rfl⟩
  | cons k tl ih =>
    simp only [List.mem_cons, not_or] at hn
    simp only [List.foldl_cons]
    obtain ⟨h1, h2⟩ := ih (dropStale mem k) hn.2
    obtain ⟨g1, g2⟩ := dropStale_other mem k n hn.1
    exact ⟨h1.trans g1, h2.trans g2⟩

theorem processDir_repeat (dirPath : String) (memA memB : LoaderMem)
    (outA outB : List PluginRec) (d : FsDirEntry)
    (hstate : (dlookup memB.state d.name).getD false =
      (dlookup memA.state d.name).getD false)
    (hrec : dlookup memB.records d.name =
      dlookup ((processDir dirPath (memA, outA) d).1).records d.name)
    (hmt : dlookup memB.module_mtimes d.name =
      dlookup ((processDir dirPath (memA, outA) d).1).module_mtimes d.name) :
    ∃ rec, (processDir dirPath (memA, outA) d).2 = outA ++ [rec]
      ∧ (processDir dirPath (memB, outB) d).2 = outB ++ [rec] := by
  cases happ : d.app with
  | none =>
    simp only [processDir, happ] at hrec ⊢
    rw [dlookup_dinsert_self] at hrec
    refine ⟨_, rfl, ?_⟩
    rw [hstate]
  | some appf =>
    cases hrecA : dlookup memA.records d.name with
    | some r =>
      by_cases hhit : r.error = none ∧ r.module_name = mkModuleName dirPath d.name
          ∧ dlookup memA.module_mtimes d.name = some appf.mtimeNs
      · -- pass-1 cache hit produced r1
        simp only [processDir, happ, hrecA] at hrec hmt ⊢
        rw [if_pos hhit] at hrec hmt ⊢
        rw [dlookup_dinsert_self] at hrec
        simp only at hmt
        -- pass 2: looks up r1; hit conditions hold again
        rw [hrec, hmt]
        rw [hhit.2.2]
        simp only
        rw [if_pos ⟨hhit.1, hhit.2.1, by trivial⟩]
        refine ⟨_, rfl, ?_⟩
        rw [hstate]
      · -- pass-1 cache miss: rebuild
        cases hcont : appf.content with
        | routersOf rs =>
          simp only [processDir, happ, hrecA, hcont] at hrec hmt ⊢
          rw [if_neg hhit] at hrec hmt ⊢
          simp only [hcont] at hrec hmt ⊢
          rw [dlookup_dinsert_self] at hrec
          rw [dlookup_dinsert_self] at hmt
          -- pass 2 hits the cache on the rebuilt record
          rw [hrec, hmt]
          simp only
          rw [if_pos ⟨by trivial, by trivial, by trivial⟩]
          refine ⟨_, rfl, ?_⟩
          rw [hstate]
        | raisesOn msg =>
          simp only [processDir, happ, hrecA, hcont] at hrec hmt ⊢
          rw [if_neg hhit] at hrec hmt ⊢
          simp only [hcont] at hrec hmt ⊢
          rw [dlookup_dinsert_self] at hrec
          rw [dlookup_dinsert_self] at hmt
          -- pass 2 misses (error set) and rebuilds identically
          rw [hrec, hmt]
          simp only
          rw [if_neg (by intro hcc; exact Option.noConfusion hcc.1)]
          refine ⟨_, rfl, ?_⟩
          rw [hstate]
    | none =>
      cases hcont : appf.content with
      | routersOf rs =>
        simp only [processDir, happ, hrecA, hcont] at hrec hmt ⊢
        rw [dlookup_dinsert_self] at hrec
        rw [dlookup_dinsert_self] at hmt
        rw [hrec, hmt]
        simp only
        rw [if_pos ⟨by trivial, by trivial, by trivial⟩]
        refine ⟨_, rfl, ?_⟩
        rw [hstate]
      | raisesOn msg =>
        simp only [processDir, happ, hrecA, hcont] at hrec hmt ⊢
        rw [dlookup_dinsert_self] at hrec
        rw [dlookup_dinsert_self] at hmt
        rw [hrec, hmt]
        simp only
        rw [if_neg (by intro hcc; exact Option.noConfusion hcc.1)]
        refine ⟨_, rfl, ?_⟩
        rw [hstate]

theorem foldl_processDir_repeat (dirPath : String) (l : List FsDirEntry) :
    ∀ (memA memB : LoaderMem) (outA outB : List PluginRec),
    (l.map FsDirEntry.name).Nodup →
    (∀ d ∈ l, (dlookup memB.state d.name).getD false =
      (dlookup memA.state d.name).getD false) →
    (∀ d ∈ l, dlookup memB.records d.name =
      dlookup ((l.foldl (processDir dirPath) (memA, outA)).1).records d.name) →
    (∀ d ∈ l, dlookup memB.module_mtimes d.name =
      dlookup ((l.foldl (processDir dirPath) (memA, outA)).1).module_mtimes d.name) →
    ∃ tail, (l.foldl (processDir dirPath) (memA, outA)).2 = outA ++ tail
      ∧ (l.foldl (processDir dirPath) (memB, outB)).2 = outB ++ tail := by
  induction l with
  | nil =>
    intro memA memB outA outB _ _ _ _
    exact ⟨[], by simp, by simp⟩
  | cons hd tl ih =>
    intro memA memB outA outB hnd hstate hrec hmt
    simp only [List.map_cons, List.nodup_cons] at hnd
    have hne : ∀ d ∈ tl, ¬ d.name = hd.name := by
      intro d hdm he
      exact hnd.1 (he ▸ List.mem_map_of_mem FsDirEntry.name hdm)
    have hfinal_eq : ∀ n, n = hd.name →
        dlookup (((hd :: tl).foldl (processDir dirPath) (memA, outA)).1).records n =
          dlookup ((processDir dirPath (memA, outA) hd).1).records n
        ∧ dlookup (((hd :: tl).foldl (processDir dirPath) (memA, outA)).1).module_mtimes n =
          dlookup ((processDir dirPath (memA, outA) hd).1).module_mtimes n := by
      intro n hn
      subst hn
      simp only [List.foldl_cons]
      exact foldl_processDir_other dirPath tl (processDir dirPath (memA, outA) hd) hd.name
        (fun hm => hnd.1 hm)
    obtain ⟨rec, hA, hB⟩ := processDir_repeat dirPath memA memB outA outB hd
      (hstate hd (List.mem_cons_self hd tl))
      (by rw [hrec hd (List.mem_cons_self hd tl)]
          exact (hfinal_eq hd.name rfl).1)
      (by rw [hmt hd (List.mem_cons_self hd tl)]
          exact (hfinal_eq hd.name rfl).2)
    have hstepA : processDir dirPath (memA, outA) hd =
        ((processDir dirPath (memA, outA) hd).1, outA ++ [rec]) := by
      rw [← hA]
    have hstepB : processDir dirPath (memB, outB) hd =
        ((processDir dirPath (memB, outB) hd).1, outB ++ [rec]) := by
      rw [← hB]
    have hstateA := processDir_state_eq dirPath (memA, outA) hd
    have hstateB := processDir_state_eq dirPath (memB, outB) hd
    obtain ⟨tail', htA, htB⟩ := ih (processDir dirPath (memA, outA) hd).1
      (processDir dirPath (memB, outB) hd).1 (outA ++ [rec]) (outB ++ [rec]) hnd.2
      (by intro d hdm
          rw [hstateB.1, hstateA.1]
          exact hstate d (List.mem_cons_of_mem hd hdm))
      (by intro d hdm
          rw [(processDir_other dirPath (memB, outB) hd d.name (hne d hdm)).1]
          rw [hrec d (List.mem_cons_of_mem hd hdm)]
          simp only [List.foldl_cons]
          rw [hstepA])
      (by intro d hdm
          rw [(processDir_other dirPath (memB, outB) hd d.name (hne d hdm)).2]
          rw [hmt d (List.mem_cons_of_mem hd hdm)]
          simp only [List.foldl_cons]
          rw [hstepA])
    refine ⟨rec :: tail', ?_, ?_⟩
    · simp only [List.foldl_cons]
      rw [hstepA, htA]
      simp
    · simp only [List.foldl_cons]
      rw [hstepB, htB]
      simp

theorem refresh_state_none (w : World) (m : LoaderMem) (hsf : w.stateFile = none) :
    (refreshStateFromDisk w m).state = [] := by
  simp only [refreshStateFromDisk, hsf]
  by_cases hne : m.state ≠ []
  · rw [if_pos hne]
  · rw [if_neg hne]
    push_neg at hne
    exact hne

theorem refresh_noop (w : World) (m : LoaderMem)
    (h : m.state_mtime = stateFileMtime w) (h2 : w.stateFile = none → m.state = []) :
    refreshStateFromDisk w m = m := by
  cases hsf : w.stateFile with
  | none =>
    simp only [stateFileMtime, hsf] at h
    simp only [refreshStateFromDisk, hsf]
    rw [if_neg (by rw [h2 hsf]; exact fun hc => hc rfl)]
    cases m
    simp only at h ⊢
    rw [← h]
  | some tc =>
    obtain ⟨t, c⟩ := tc
    simp only [stateFileMtime, hsf] at h
    simp only [refreshStateFromDisk, hsf]
    rw [if_neg]
    push_neg
    rw [h]
    exact ⟨Option.noConfusion, rfl⟩

theorem syncPluginStates_records (w : World) (mem : LoaderMem)
    (records : List PluginRec) :
    ((syncPluginStates w mem records).2).records = mem.records
    ∧ ((syncPluginStates w mem records).2).module_mtimes = mem.module_mtimes := by
  simp only [syncPluginStates]
  split
  · exact ⟨rfl, rfl⟩
  · exact ⟨rfl, rfl⟩

theorem syncPluginStates_state_val (w : World) (mem : LoaderMem)
    (records : List PluginRec) :
    ((syncPluginStates w mem records).2).state =
      (((dkeys (records.foldl
        (fun (acc : List (String × Bool) × Bool) (r : PluginRec) =>
          if (dlookup acc.1 r.name).isSome then acc
          else (dinsert acc.1 r.name false, true)) (mem.state, false)).1).filter fun k =>
            !((records.map PluginRec.name).contains k)).foldl
        (fun s k => derase s k)
        (records.foldl (fun (acc : List (String × Bool) × Bool) (r : PluginRec) =>
          if (dlookup acc.1 r.name).isSome then acc
          else (dinsert acc.1 r.name false, true)) (mem.state, false)).1) := by
  simp only [syncPluginStates]
  split
  · rfl
  · rfl

theorem syncPluginStates_lookupD (w : World) (mem : LoaderMem)
    (records : List PluginRec) (n : String) (hm : n ∈ records.map PluginRec.name) :
    (dlookup ((syncPluginStates w mem records).2).state n).getD false =
      (dlookup mem.state n).getD false := by
  rw [syncPluginStates_state_val]
  have hnotstale : n ∉ (dkeys (records.foldl
      (fun (acc : List (String × Bool) × Bool) (r : PluginRec) =>
        if (dlookup acc.1 r.name).isSome then acc
        else (dinsert acc.1 r.name false, true)) (mem.state, false)).1).filter
      (fun k => !((records.map PluginRec.name).contains k)) := by
    intro hin
    have := List.of_mem_filter hin
    rw [Bool.not_eq_true'] at this
    simp only [List.contains] at this
    rw [← List.elem_iff] at hm
    rw [hm] at this
    cases this
  rw [fold_derase_lookup_notmem _ _ n hnotstale]
  cases hsl : dlookup mem.state n with
  | some b =>
    rw [stepAdd_fold_preserve_some records mem.state false n b hsl]
  | none =>
    rw [stepAdd_fold_new_false records mem.state false n hsl hm]
    rfl

theorem syncPluginStates_postfacts (w : World) (mem : LoaderMem)
    (records : List PluginRec) (hmt : mem.state_mtime = stateFileMtime w) :
    ((syncPluginStates w mem records).2).state_mtime =
      stateFileMtime (syncPluginStates w mem records).1
    ∧ (((syncPluginStates w mem records).1).stateFile = none →
        ((syncPluginStates w mem records).2).state = []) := by
  simp only [syncPluginStates]
  by_cases hc : ((records.foldl
      (fun (acc : List (String × Bool) × Bool) (r : PluginRec) =>
        if (dlookup acc.1 r.name).isSome then acc
        else (dinsert acc.1 r.name false, true)) (mem.state, false)).2 ||
        !(((dkeys (records.foldl
          (fun (acc : List (String × Bool) × Bool) (r : PluginRec) =>
            if (dlookup acc.1 r.name).isSome then acc
            else (dinsert acc.1 r.name false, true)) (mem.state, false)).1).filter fun k =>
              !((records.map PluginRec.name).contains k)).isEmpty)) = true
      ∨ w.stateFile = none
  · rw [if_pos hc]
    exact ⟨rfl, fun h => Option.noConfusion h⟩
  · rw [if_neg hc]
    push_neg at hc
    refine ⟨hmt, fun h => absurd h hc.2⟩

theorem C5_pass2_eq (dirPath : String) (fs : List FsDirEntry)
    (w : World) (mem : LoaderMem)
    (hwf : ∀ n r, dlookup mem.records n = some r → r.name = n)
    (hnd : (fs.map FsDirEntry.name).Nodup) :
    (loadPlugins dirPath fs (loadPlugins dirPath fs w mem).1
      (loadPlugins dirPath fs w mem).2.1).2.2 = (loadPlugins dirPath fs w mem).2.2 := by
  have hwf0 : RecNamesOk (refreshStateFromDisk w mem).records := refresh_RecNamesOk w mem hwf
  obtain ⟨⟨tail0, ht1, ht2, _, _⟩, _⟩ :=
    foldl_processDir_props dirPath (discoveredDirs fs) ((refreshStateFromDisk w mem), []) hwf0
  have hnames : ((discoveredDirs fs).foldl (processDir dirPath) ((refreshStateFromDisk w mem), [])).2.map PluginRec.name = ((discoveredDirs fs).map FsDirEntry.name) := by
    rw [ht1]
    simpa using ht2
  have hnd_disc : (((discoveredDirs fs).map FsDirEntry.name)).Nodup :=
    ((fs.filter_sublist).map FsDirEntry.name).nodup hnd
  have hfoldAstate := foldl_processDir_state_eq dirPath (discoveredDirs fs) ((refreshStateFromDisk w mem), [])
  have hdropstate := foldl_dropStale_state_eq ((dkeys ((discoveredDirs fs).foldl (processDir dirPath) ((refreshStateFromDisk w mem), [])).1.records).filter fun n => !(((discoveredDirs fs).map FsDirEntry.name).contains n)) ((discoveredDirs fs).foldl (processDir dirPath) ((refreshStateFromDisk w mem), [])).1
  have hnotstale : ∀ d ∈ discoveredDirs fs, d.name ∉ ((dkeys ((discoveredDirs fs).foldl (processDir dirPath) ((refreshStateFromDisk w mem), [])).1.records).filter fun n => !(((discoveredDirs fs).map FsDirEntry.name).contains n)) := by
    intro d hd hin
    have hmem : d.name ∈ ((discoveredDirs fs).map FsDirEntry.name) := List.mem_map_of_mem FsDirEntry.name hd
    have := List.of_mem_filter hin
    rw [Bool.not_eq_true'] at this
    simp only [List.contains] at this
    rw [← List.elem_iff] at hmem
    rw [hmem] at this
    cases this
  have hstate1 : ∀ d ∈ discoveredDirs fs,
      (dlookup (syncPluginStates w (((dkeys ((discoveredDirs fs).foldl (processDir dirPath) ((refreshStateFromDisk w mem), [])).1.records).filter fun n => !(((discoveredDirs fs).map FsDirEntry.name).contains n)).foldl dropStale ((discoveredDirs fs).foldl (processDir dirPath) ((refreshStateFromDisk w mem), [])).1) ((discoveredDirs fs).foldl (processDir dirPath) ((refreshStateFromDisk w mem), [])).2).2.state d.name).getD false =
        (dlookup (refreshStateFromDisk w mem).state d.name).getD false := by
    intro d hd
    have hmem : d.name ∈ ((discoveredDirs fs).foldl (processDir dirPath) ((refreshStateFromDisk w mem), [])).2.map PluginRec.name := by
      rw [hnames]
      exact List.mem_map_of_mem FsDirEntry.name hd
    rw [syncPluginStates_lookupD w (((dkeys ((discoveredDirs fs).foldl (processDir dirPath) ((refreshStateFromDisk w mem), [])).1.records).filter fun n => !(((discoveredDirs fs).map FsDirEntry.name).contains n)).foldl dropStale ((discoveredDirs fs).foldl (processDir dirPath) ((refreshStateFromDisk w mem), [])).1) ((discoveredDirs fs).foldl (processDir dirPath) ((refreshStateFromDisk w mem), [])).2 d.name hmem]
    rw [hdropstate.1, hfoldAstate.1]
  have hrec1 : ∀ d ∈ discoveredDirs fs,
      dlookup (syncPluginStates w (((dkeys ((discoveredDirs fs).foldl (processDir dirPath) ((refreshStateFromDisk w mem), [])).1.records).filter fun n => !(((discoveredDirs fs).map FsDirEntry.name).contains n)).foldl dropStale ((discoveredDirs fs).foldl (processDir dirPath) ((refreshStateFromDisk w mem), [])).1) ((discoveredDirs fs).foldl (processDir dirPath) ((refreshStateFromDisk w mem), [])).2).2.records d.name = dlookup ((discoveredDirs fs).foldl (processDir dirPath) ((refreshStateFromDisk w mem), [])).1.records d.name := by
    intro d hd
    rw [(syncPluginStates_records w (((dkeys ((discoveredDirs fs).foldl (processDir dirPath) ((refreshStateFromDisk w mem), [])).1.records).filter fun n => !(((discoveredDirs fs).map FsDirEntry.name).contains n)).foldl dropStale ((discoveredDirs fs).foldl (processDir dirPath) ((refreshStateFromDisk w mem), [])).1) ((discoveredDirs fs).foldl (processDir dirPath) ((refreshStateFromDisk w mem), [])).2).1]
    exact (foldl_dropStale_other ((dkeys ((discoveredDirs fs).foldl (processDir dirPath) ((refreshStateFromDisk w mem), [])).1.records).filter fun n => !(((discoveredDirs fs).map FsDirEntry.name).contains n)) ((discoveredDirs fs).foldl (processDir dirPath) ((refreshStateFromDisk w mem), [])).1 d.name (hnotstale d hd)).1
  have hmt1 : ∀ d ∈ discoveredDirs fs,
      dlookup (syncPluginStates w (((dkeys ((discoveredDirs fs).foldl (processDir dirPath) ((refreshStateFromDisk w mem), [])).1.records).filter fun n => !(((discoveredDirs fs).map FsDirEntry.name).contains n)).foldl dropStale ((discoveredDirs fs).foldl (processDir dirPath) ((refreshStateFromDisk w mem), [])).1) ((discoveredDirs fs).foldl (processDir dirPath) ((refreshStateFromDisk w mem), [])).2).2.module_mtimes d.name = dlookup ((discoveredDirs fs).foldl (processDir dirPath) ((refreshStateFromDisk w mem), [])).1.module_mtimes d.name := by
    intro d hd
    rw [(syncPluginStates_records w (((dkeys ((discoveredDirs fs).foldl (processDir dirPath) ((refreshStateFromDisk w mem), [])).1.records).filter fun n => !(((discoveredDirs fs).map FsDirEntry.name).contains n)).foldl dropStale ((discoveredDirs fs).foldl (processDir dirPath) ((refreshStateFromDisk w mem), [])).1) ((discoveredDirs fs).foldl (processDir dirPath) ((refreshStateFromDisk w mem), [])).2).2]
    exact (foldl_dropStale_other ((dkeys ((discoveredDirs fs).foldl (processDir dirPath) ((refreshStateFromDisk w mem), [])).1.records).filter fun n => !(((discoveredDirs fs).map FsDirEntry.name).contains n)) ((discoveredDirs fs).foldl (processDir dirPath) ((refreshStateFromDisk w mem), [])).1 d.name (hnotstale d hd)).2
  obtain ⟨tail, htA, htB⟩ := foldl_processDir_repeat dirPath (discoveredDirs fs)
    (refreshStateFromDisk w mem) (syncPluginStates w (((dkeys ((discoveredDirs fs).foldl (processDir dirPath) ((refreshStateFromDisk w mem), [])).1.records).filter fun n => !(((discoveredDirs fs).map FsDirEntry.name).contains n)).foldl dropStale ((discoveredDirs fs).foldl (processDir dirPath) ((refreshStateFromDisk w mem), [])).1) ((discoveredDirs fs).foldl (processDir dirPath) ((refreshStateFromDisk w mem), [])).2).2 [] [] hnd_disc hstate1 hrec1 hmt1
  have hm2mtime : (((dkeys ((discoveredDirs fs).foldl (processDir dirPath) ((refreshStateFromDisk w mem), [])).1.records).filter fun n => !(((discoveredDirs fs).map FsDirEntry.name).contains n)).foldl dropStale ((discoveredDirs fs).foldl (processDir dirPath) ((refreshStateFromDisk w mem), [])).1).state_mtime = stateFileMtime w := by
    rw [hdropstate.2, hfoldAstate.2]
    exact refresh_sync_mtime w mem
  obtain ⟨hpf1, hpf2⟩ := syncPluginStates_postfacts w (((dkeys ((discoveredDirs fs).foldl (processDir dirPath) ((refreshStateFromDisk w mem), [])).1.records).filter fun n => !(((discoveredDirs fs).map FsDirEntry.name).contains n)).foldl dropStale ((discoveredDirs fs).foldl (processDir dirPath) ((refreshStateFromDisk w mem), [])).1) ((discoveredDirs fs).foldl (processDir dirPath) ((refreshStateFromDisk w mem), [])).2 hm2mtime
  have hnoop : refreshStateFromDisk (syncPluginStates w (((dkeys ((discoveredDirs fs).foldl (processDir dirPath) ((refreshStateFromDisk w mem), [])).1.records).filter fun n => !(((discoveredDirs fs).map FsDirEntry.name).contains n)).foldl dropStale ((discoveredDirs fs).foldl (processDir dirPath) ((refreshStateFromDisk w mem), [])).1) ((discoveredDirs fs).foldl (processDir dirPath) ((refreshStateFromDisk w mem), [])).2).1 (syncPluginStates w (((dkeys ((discoveredDirs fs).foldl (processDir dirPath) ((refreshStateFromDisk w mem), [])).1.records).filter fun n => !(((discoveredDirs fs).map FsDirEntry.name).contains n)).foldl dropStale ((discoveredDirs fs).foldl (processDir dirPath) ((refreshStateFromDisk w mem), [])).1) ((discoveredDirs fs).foldl (processDir dirPath) ((refreshStateFromDisk w mem), [])).2).2 = (syncPluginStates w (((dkeys ((discoveredDirs fs).foldl (processDir dirPath) ((refreshStateFromDisk w mem), [])).1.records).filter fun n => !(((discoveredDirs fs).map FsDirEntry.name).contains n)).foldl dropStale ((discoveredDirs fs).foldl (processDir dirPath) ((refreshStateFromDisk w mem), [])).1) ((discoveredDirs fs).foldl (processDir dirPath) ((refreshStateFromDisk w mem), [])).2).2 :=
    refresh_noop (syncPluginStates w (((dkeys ((discoveredDirs fs).foldl (processDir dirPath) ((refreshStateFromDisk w mem), [])).1.records).filter fun n => !(((discoveredDirs fs).map FsDirEntry.name).contains n)).foldl dropStale ((discoveredDirs fs).foldl (processDir dirPath) ((refreshStateFromDisk w mem), [])).1) ((discoveredDirs fs).foldl (processDir dirPath) ((refreshStateFromDisk w mem), [])).2).1 (syncPluginStates w (((dkeys ((discoveredDirs fs).foldl (processDir dirPath) ((refreshStateFromDisk w mem), [])).1.records).filter fun n => !(((discoveredDirs fs).map FsDirEntry.name).contains n)).foldl dropStale ((discoveredDirs fs).foldl (processDir dirPath) ((refreshStateFromDisk w mem), [])).1) ((discoveredDirs fs).foldl (processDir dirPath) ((refreshStateFromDisk w mem), [])).2).2 hpf1 hpf2
  show ((discoveredDirs fs).foldl (processDir dirPath)
      (refreshStateFromDisk (syncPluginStates w (((dkeys ((discoveredDirs fs).foldl (processDir dirPath) ((refreshStateFromDisk w mem), [])).1.records).filter fun n => !(((discoveredDirs fs).map FsDirEntry.name).contains n)).foldl dropStale ((discoveredDirs fs).foldl (processDir dirPath) ((refreshStateFromDisk w mem), [])).1) ((discoveredDirs fs).foldl (processDir dirPath) ((refreshStateFromDisk w mem), [])).2).1 (syncPluginStates w (((dkeys ((discoveredDirs fs).foldl (processDir dirPath) ((refreshStateFromDisk w mem), [])).1.records).filter fun n => !(((discoveredDirs fs).map FsDirEntry.name).contains n)).foldl dropStale ((discoveredDirs fs).foldl (processDir dirPath) ((refreshStateFromDisk w mem), [])).1) ((discoveredDirs fs).foldl (processDir dirPath) ((refreshStateFromDisk w mem), [])).2).2, [])).2 = ((discoveredDirs fs).foldl (processDir dirPath) ((refreshStateFromDisk w mem), [])).2
  rw [hnoop, htB, htA]

/-- C5: for a plugin whose previous load succeeded (record with no error and
the same module identity) and whose entry unit's fingerprint is unchanged, the
load pass is a cache hit returning the stored record itself (only its
`enabled` flag and fingerprint field are refreshed — same module identity,
same route-group objects, still no error); consequently running the loader
twice with no file changes returns the identical record list both times. -/
theorem C5_cache_hit_idempotent (dirPath : String) (fs : List FsDirEntry)
    (w : World) (mem : LoaderMem)
    (hwf : ∀ n r, dlookup mem.records n = some r → r.name = n)
    (hnd : (fs.map FsDirEntry.name).Nodup) :
    (∀ (acc : LoaderMem × List PluginRec) (d : FsDirEntry) (r : PluginRec) (appf : AppFile),
      d.app = some appf → dlookup (acc.1).records d.name = some r →
      r.error = none → r.module_name = mkModuleName dirPath d.name →
      dlookup (acc.1).module_mtimes d.name = some appf.mtimeNs →
      (processDir dirPath acc d).2 = acc.2 ++
        [{ r with
            enabled := (dlookup (acc.1).state d.name).getD false,
            module_mtime_ns := some appf.mtimeNs }])
    ∧ (loadPlugins dirPath fs (loadPlugins dirPath fs w mem).1
        (loadPlugins dirPath fs w mem).2.1).2.2 = (loadPlugins dirPath fs w mem).2.2 := by
  constructor
  · intro acc d r appf happ hrec herr hmn hmt
    simp only [processDir, happ, hrec]
    rw [if_pos ⟨herr, hmn, hmt⟩]
  · exact C5_pass2_eq dirPath fs w mem hwf hnd


/-- Witness for `C5_cache_hit_idempotent` on the concrete three-plugin
directory: a second pass over unchanged files returns the same records. -/
theorem C5_cache_hit_idempotent_witness :
    (∀ n r, dlookup exMem0.records n = some r → r.name = n)
    ∧ (exFs7.map FsDirEntry.name).Nodup
    ∧ ((∀ (acc : LoaderMem × List PluginRec) (d : FsDirEntry) (r : PluginRec)
          (appf : AppFile),
        d.app = some appf → dlookup (acc.1).records d.name = some r →
        r.error = none → r.module_name = mkModuleName "/p" d.name →
        dlookup (acc.1).module_mtimes d.name = some appf.mtimeNs →
        (processDir "/p" acc d).2 = acc.2 ++
          [{ r with
              enabled := (dlookup (acc.1).state d.name).getD false,
              module_mtime_ns := some appf.mtimeNs }])
      ∧ (loadPlugins "/p" exFs7 (loadPlugins "/p" exFs7 exW7 exMem0).1
          (loadPlugins "/p" exFs7 exW7 exMem0).2.1).2.2 =
        (loadPlugins "/p" exFs7 exW7 exMem0).2.2) :=
  ⟨fun _ _ h => Option.noConfusion h, by decide,
    C5_cache_hit_idempotent "/p" exFs7 exW7 exMem0
      (fun _ _ h => Option.noConfusion h) (by decide)⟩

theorem toNat_ofNat_valid (n : Nat) (h : n.isValidChar) : (Char.ofNat n).toNat = n := by
  rw [Char.ofNat, dif_pos h]
  rfl

theorem toLower_spec (c : Char) :
    (¬ (65 ≤ c.toNat ∧ c.toNat ≤ 90) ∧ c.toLower = c)
    ∨ (65 ≤ c.toNat ∧ c.toNat ≤ 90 ∧ c.toLower.toNat = c.toNat + 32) := by
  by_cases h : 65 ≤ c.toNat ∧ c.toNat ≤ 90
  · refine Or.inr ⟨h.1, h.2, ?_⟩
    have hv : (c.toNat + 32).isValidChar := by
      unfold Nat.isValidChar
      left
      omega
    simp only [Char.toLower]
    rw [if_pos ⟨h.1, h.2⟩]
    exact toNat_ofNat_valid _ hv
  · refine Or.inl ⟨h, ?_⟩
    simp only [Char.toLower]
    rw [if_neg (fun hc => h ⟨hc.1, hc.2⟩)]

theorem char_toNat_inj (a b : Char) (h : a.toNat = b.toNat) : a = b := by
  apply Char.ext
  exact UInt32.toNat.inj h

theorem toLower_eq_colon_iff (c : Char) : Char.toLower c = ':' ↔ c = ':' := by
  constructor
  · intro h
    rcases toLower_spec c with ⟨_, he⟩ | ⟨h1, h2, h3⟩
    · rw [← he]; exact h
    · exfalso
      rw [h] at h3
      have : (':' : Char).toNat = 58 := by decide
      omega
  · intro h
    rw [h]
    rfl

theorem string_data_inj (a b : String) (h : a.data = b.data) : a = b := by
  cases a
  cases b
  simp only at h
  rw [h]

/-- The characters of a Python identifier never include a colon. -/
def identLike (s : String) : Prop := ∀ c ∈ s.data, ¬ c = ':'

theorem lower_count_colon_zero (s : String) (h : identLike s) :
    (s.data.map Char.toLower).count ':' = 0 := by
  rw [List.count_eq_zero]
  intro hmem
  obtain ⟨c, hc, he⟩ := List.mem_map.mp hmem
  exact h c hc ((toLower_eq_colon_iff c).mp he)

theorem key_none_data (c f : String) :
    (buildTransformedName none c f).data =
      (c.data.map Char.toLower) ++ ':' :: (f.data.map Char.toLower) := by
  show ((c ++ ":" ++ f).data.map Char.toLower) = _
  have : (c ++ ":" ++ f).data = c.data ++ ':' :: f.data := by
    show (c.data ++ [':']) ++ f.data = _
    simp
  rw [this, List.map_append, List.map_cons]
  rfl

theorem key_some_data (q c f : String) (hq : ¬ q = "") :
    (buildTransformedName (some q) c f).data =
      (q.data.map Char.toLower) ++ ':' ::
        ((c.data.map Char.toLower) ++ ':' :: (f.data.map Char.toLower)) := by
  have hjoin : joinColon [q, c, f] = q ++ ":" ++ (c ++ ":" ++ f) := by
    show q ++ ":" ++ joinColon [c, f] = _
    rfl
  show (pyLower (joinColon ((if q ≠ "" then [q] else []) ++ [c, f]))).data = _
  rw [if_pos hq]
  show ((joinColon [q, c, f]).data.map Char.toLower) = _
  rw [hjoin]
  have : (q ++ ":" ++ (c ++ ":" ++ f)).data =
      q.data ++ ':' :: (c.data ++ ':' :: f.data) := by
    show (q.data ++ [':']) ++ ((c.data ++ [':']) ++ f.data) = _
    simp
  rw [this, List.map_append, List.map_cons, List.map_append, List.map_cons]
  rfl

theorem key_none_count (c f : String) (hc : identLike c) (hf : identLike f) :
    (buildTransformedName none c f).data.count ':' = 1 := by
  rw [key_none_data, List.count_append, List.count_cons]
  rw [lower_count_colon_zero c hc, lower_count_colon_zero f hf]
  rfl

theorem key_some_count (q c f : String) (hq : ¬ q = "") :
    2 ≤ (buildTransformedName (some q) c f).data.count ':' := by
  rw [key_some_data q c f hq, List.count_append, List.count_cons, List.count_append,
    List.count_cons]
  simp
  omega

theorem key_none_ne_some (c f q c2 f2 : String) (hc : identLike c) (hf : identLike f)
    (hq : ¬ q = "") :
    ¬ buildTransformedName none c f = buildTransformedName (some q) c2 f2 := by
  intro he
  have h1 := key_none_count c f hc hf
  have h2 := key_some_count q c2 f2 hq
  rw [he] at h1
  omega

theorem split_colon_unique (a1 : List Char) :
    ∀ (a2 b1 b2 : List Char), a1 ++ ':' :: b1 = a2 ++ ':' :: b2 →
      ':' ∉ a1 → ':' ∉ a2 → a1 = a2 ∧ b1 = b2 := by
  induction a1 with
  | nil =>
    intro a2 b1 b2 he h1 h2
    cases a2 with
    | nil => exact ⟨rfl, List.cons.inj he |>.2⟩
    | cons x xs =>
      simp only [List.nil_append, List.cons_append] at he
      obtain ⟨hx, _⟩ := List.cons.inj he
      rw [← hx] at h2
      exact absurd (List.mem_cons_self _ _) h2
  | cons x xs ih =>
    intro a2 b1 b2 he h1 h2
    cases a2 with
    | nil =>
      simp only [List.cons_append, List.nil_append] at he
      obtain ⟨hx, _⟩ := List.cons.inj he
      rw [hx] at h1
      exact absurd (List.mem_cons_self _ _) h1
    | cons y ys =>
      simp only [List.cons_append] at he
      obtain ⟨hxy, hrest⟩ := List.cons.inj he
      have h1' : ':' ∉ xs := fun hm => h1 (List.mem_cons_of_mem x hm)
      have h2' : ':' ∉ ys := fun hm => h2 (List.mem_cons_of_mem y hm)
      obtain ⟨ha, hb⟩ := ih ys b1 b2 hrest h1' h2'
      exact ⟨by rw [hxy, ha], hb⟩

theorem key_none_inj (c1 f1 c2 f2 : String) (hc1 : identLike c1) (hc2 : identLike c2)
    (he : buildTransformedName none c1 f1 = buildTransformedName none c2 f2) :
    pyLower c1 = pyLower c2 ∧ pyLower f1 = pyLower f2 := by
  have hd := congrArg String.data he
  rw [key_none_data, key_none_data] at hd
  have hn1 : ':' ∉ c1.data.map Char.toLower := by
    intro hm
    obtain ⟨c, hcm, hce⟩ := List.mem_map.mp hm
    exact hc1 c hcm ((toLower_eq_colon_iff c).mp hce)
  have hn2 : ':' ∉ c2.data.map Char.toLower := by
    intro hm
    obtain ⟨c, hcm, hce⟩ := List.mem_map.mp hm
    exact hc2 c hcm ((toLower_eq_colon_iff c).mp hce)
  obtain ⟨ha, hb⟩ := split_colon_unique _ _ _ _ hd hn1 hn2
  exact ⟨string_data_inj _ _ ha, string_data_inj _ _ hb⟩

/-- A sequence of `register` calls, aborting at the first exception (as the
exception would propagate to the caller). -/
def runRegs (r : Registry) : List (PyObj × Option String) → Registry × Option PyErr
  | [] => (r, none)
  | (obj, p) :: rest =>
    match registerR obj p r with
    | (r', none) => runRegs r' rest
    | (r', some e) => (r', some e)

/-- A pydantic model whose class name and field names are Python identifiers
(in particular, colon-free). -/
def wfModel (m : PModel) : Prop :=
  identLike m.name ∧ ∀ q ∈ m.model_fields, identLike q.1

theorem registerModel_ok_none (m : PModel) (rebuild : Bool) (r : Registry)
    (hfresh : dlookup r.plugins (pyLower m.name) = none) :
    registerModel (PyObj.mdl m) none rebuild r =
      (let st := addFields m none (pyLower m.name) 1
         { fields := r.fields, collisions := r.collisions, name_map := [] }
       let rr : Registry :=
         { r with
           plugins := dinsert r.plugins (pyLower m.name)
             { model_class := m, pfx := none, name_map := st.name_map },
           fields := st.fields,
           collisions := st.collisions,
           dirty := true }
       ((if rebuild then rebuildR rr else rr), none)) := by
  simp only [registerModel, hfresh, Option.isSome_none, Bool.false_eq_true, if_false]
  rfl

theorem mkey_cases (np : Option String) (c f : String) :
    buildTransformedName np c f = buildTransformedName none c f
    ∨ ∃ q, np = some q ∧ ¬ q = "" ∧
        buildTransformedName np c f = buildTransformedName (some q) c f := by
  cases np with
  | none => exact Or.inl rfl
  | some q =>
    by_cases hq : q = ""
    · subst hq
      left
      show pyLower (joinColon ((if ("" : String) ≠ "" then [""] else []) ++ [c, f])) = _
      rw [if_neg (by simp)]
      rfl
    · exact Or.inr ⟨q, rfl, hq, rfl⟩

theorem mkey_ne_fkey (M F : PModel) (np : Option String) (f n : String)
    (hwM : identLike M.name) (hwF : identLike F.name) (hwn : identLike n)
    (hid : ¬ pyLower M.name = pyLower F.name) :
    ¬ buildTransformedName np M.name f = buildTransformedName none F.name n := by
  intro he
  rcases mkey_cases np M.name f with h2 | ⟨q, _, hq, h3⟩
  · rw [h2] at he
    exact hid (key_none_inj M.name f F.name n hwM hwF he).1
  · rw [h3] at he
    exact key_none_ne_some F.name n q M.name f hwF hwn hq he.symm

theorem addOneField_preserves (modelName pluginName : String) (pfx : Option String)
    (prio : Nat) (st : AddSt) (fld : String × FieldInfo) (k : String)
    (hk : ¬ buildTransformedName pfx modelName fld.1 = k) :
    dlookup (addOneField modelName pfx pluginName prio st fld).fields k =
      dlookup st.fields k := by
  simp only [addOneField]
  cases dlookup st.fields (buildTransformedName pfx modelName fld.1) with
  | none =>
    simp only
    exact dlookup_dinsert_ne _ _ _ _ (fun he => hk he.symm)
  | some exi =>
    simp only
    by_cases h1 : prio > exi.priority
    · rw [if_pos h1]
      exact dlookup_dinsert_ne _ _ _ _ (fun he => hk he.symm)
    · rw [if_neg h1]
      by_cases h2 : prio = exi.priority
      · rw [if_pos h2]
        exact dlookup_dinsert_ne _ _ _ _ (fun he => hk he.symm)
      · rw [if_neg h2]

theorem foldl_addOneField_preserves (modelName pluginName : String)
    (pfx : Option String) (prio : Nat) (l : List (String × FieldInfo)) (st : AddSt)
    (k : String) (hk : ∀ fld ∈ l, ¬ buildTransformedName pfx modelName fld.1 = k) :
    dlookup ((l.foldl (addOneField modelName pfx pluginName prio) st)).fields k =
      dlookup st.fields k := by
  induction l generalizing st with
  | nil => rfl
  | cons hd tl ih =>
    simp only [List.foldl_cons]
    rw [ih _ (fun fld hm => hk fld (List.mem_cons_of_mem hd hm))]
    exact addOneField_preserves modelName pluginName pfx prio st hd k
      (hk hd (List.mem_cons_self hd tl))

theorem dinsert_absent {α : Type} (d : List (String × α)) (k : String) (v : α)
    (h : dlookup d k = none) : dinsert d k v = d ++ [(k, v)] := by
  induction d with
  | nil => rfl
  | cons hd tl ih =>
    simp only [dlookup] at h
    by_cases hh : hd.1 = k
    · rw [if_pos hh] at h
      cases h
    · rw [if_neg hh] at h
      simp only [dinsert, if_neg hh, List.cons_append]
      rw [ih h]

theorem dlookup_append_left_none {α : Type} (d1 d2 : List (String × α)) (k : String)
    (h : dlookup d1 k = none) : dlookup (d1 ++ d2) k = dlookup d2 k := by
  induction d1 with
  | nil => rfl
  | cons hd tl ih =>
    simp only [dlookup] at h
    by_cases hh : hd.1 = k
    · rw [if_pos hh] at h
      cases h
    · rw [if_neg hh] at h
      simp only [List.cons_append, dlookup, if_neg hh]
      exact ih h

theorem addOneField_name_map (modelName pluginName : String) (pfx : Option String)
    (prio : Nat) (st : AddSt) (fld : String × FieldInfo) :
    (addOneField modelName pfx pluginName prio st fld).name_map =
      dinsert st.name_map fld.1 (buildTransformedName pfx modelName fld.1) := by
  simp only [addOneField]
  cases dlookup st.fields (buildTransformedName pfx modelName fld.1) with
  | none => simp only
  | some exi =>
    simp only
    by_cases h1 : prio > exi.priority
    · rw [if_pos h1]
    · rw [if_neg h1]
      by_cases h2 : prio = exi.priority
      · rw [if_pos h2]
      · rw [if_neg h2]

theorem addFields_name_map_eq (modelName pluginName : String) (pfx : Option String)
    (prio : Nat) (l : List (String × FieldInfo)) (st : AddSt)
    (habs : ∀ q ∈ l, dlookup st.name_map q.1 = none)
    (hnd : (l.map fun q => q.1).Nodup) :
    ((l.foldl (addOneField modelName pfx pluginName prio) st)).name_map =
      st.name_map ++ l.map fun q => (q.1, buildTransformedName pfx modelName q.1) := by
  induction l generalizing st with
  | nil => simp
  | cons hd tl ih =>
    simp only [List.map_cons, List.nodup_cons] at hnd
    simp only [List.foldl_cons]
    have hstep : (addOneField modelName pfx pluginName prio st hd).name_map =
        st.name_map ++ [(hd.1, buildTransformedName pfx modelName hd.1)] := by
      rw [addOneField_name_map]
      exact dinsert_absent _ _ _ (habs hd (List.mem_cons_self hd tl))
    rw [ih (addOneField modelName pfx pluginName prio st hd)]
    · rw [hstep]
      simp
    · intro q hq
      rw [hstep]
      have h1 : dlookup st.name_map q.1 = none := habs q (List.mem_cons_of_mem hd hq)
      have h2 : ¬ hd.1 = q.1 := fun he =>
        hnd.1 (he ▸ List.mem_map_of_mem (fun x => x.1) hq)
      rw [dlookup_append_left_none _ _ _ h1]
      simp only [dlookup]
      rw [if_neg h2]
    · exact hnd.2

theorem addOneField_fresh (modelName pluginName : String) (pfx : Option String)
    (prio : Nat) (st : AddSt) (fld : String × FieldInfo)
    (h : dlookup st.fields (buildTransformedName pfx modelName fld.1) = none) :
    (addOneField modelName pfx pluginName prio st fld).fields =
      dinsert st.fields (buildTransformedName pfx modelName fld.1)
        { annot := fld.2.annot, field_info := fld.2, priority := prio,
          source_plugin := pluginName } := by
  simp only [addOneField, h]

theorem addFields_establish_fields (modelName pn : String) (prio : Nat)
    (hwname : identLike modelName) (l : List (String × FieldInfo)) :
    ∀ (st : AddSt),
    ((l.map fun q => pyLower q.1).Nodup) →
    (∀ q ∈ l, dlookup st.fields (buildTransformedName none modelName q.1) = none) →
    ∀ q ∈ l, dlookup ((l.foldl (addOneField modelName none pn prio) st)).fields
        (buildTransformedName none modelName q.1) =
      some { annot := q.2.annot, field_info := q.2, priority := prio,
             source_plugin := pn } := by
  induction l with
  | nil => intro st _ _ q hq; cases hq
  | cons hd tl ih =>
    intro st hnd habs q hq
    simp only [List.map_cons, List.nodup_cons] at hnd
    have hkeyne : ∀ fld ∈ tl, ¬ buildTransformedName none modelName fld.1 =
        buildTransformedName none modelName hd.1 := by
      intro fld hm he
      exact hnd.1 ((key_none_inj modelName fld.1 modelName hd.1 hwname hwname he).2 ▸
        List.mem_map_of_mem (fun x => pyLower x.1) hm)
    have hstep := addOneField_fresh modelName pn none prio st hd
      (habs hd (List.mem_cons_self hd tl))
    simp only [List.foldl_cons]
    rcases List.mem_cons.mp hq with he | hm
    · subst he
      rw [foldl_addOneField_preserves modelName pn none prio tl _ _ hkeyne]
      rw [hstep]
      exact dlookup_dinsert_self _ _ _
    · apply ih (addOneField modelName none pn prio st hd) hnd.2 ?_ q hm
      intro q' hq'
      rw [hstep]
      rw [dlookup_dinsert_ne _ _ _ _ (hkeyne q' hq')]
      exact habs q' (List.mem_cons_of_mem hd hq')

/-- The fragment `F` is faithfully present in the registry: each of its fields
sits at its composed name with priority 1, and its plugin record carries the
full original-to-composed name table. -/
def InvF (F : PModel) (r : Registry) : Prop :=
  (∀ q ∈ F.model_fields, dlookup r.fields (buildTransformedName none F.name q.1) =
    some { annot := q.2.annot, field_info := q.2, priority := 1,
           source_plugin := pyLower F.name })
  ∧ dlookup r.plugins (pyLower F.name) =
      some { model_class := F, pfx := none,
             name_map := F.model_fields.map fun q =>
               (q.1, buildTransformedName none F.name q.1) }

/-- None of `F`'s composed names is present in the field table. -/
def NoF (F : PModel) (r : Registry) : Prop :=
  ∀ q ∈ F.model_fields, dlookup r.fields (buildTransformedName none F.name q.1) = none

/-- The composed model is in sync with the field table (holds after every
successful registration). -/
def ModelClean (r : Registry) : Prop :=
  r.dirty = false ∧ r.model =
    (if r.fields = [] then none
     else some (r.fields.map fun p => (p.1, (p.2.annot, p.2.field_info))))

/-- An argument of a `register` call that, if it is a model at all, is a
well-formed one. -/
def wfEntry (e : PyObj × Option String) : Prop :=
  ∀ M, e.1 = PyObj.mdl M → wfModel M

theorem registerModel_ok_shape (m : PModel) (p0 : Option String) (rebuild : Bool)
    (r : Registry) (hfresh : dlookup r.plugins (pyLower m.name) = none) :
    registerModel (PyObj.mdl m) p0 rebuild r =
      (let np : Option String := match p0 with
        | none => none
        | some p => if p = "" then none else some (normalizePfx p)
       let prio : Nat := if truthyOpt np then 2 else 1
       let st := addFields m np (pyLower m.name) prio
         { fields := r.fields, collisions := r.collisions, name_map := [] }
       let rr : Registry :=
         { r with
           plugins := dinsert r.plugins (pyLower m.name)
             { model_class := m, pfx := np, name_map := st.name_map },
           fields := st.fields,
           collisions := st.collisions,
           dirty := true }
       ((if rebuild then rebuildR rr else rr), none)) := by
  simp only [registerModel, hfresh, Option.isSome_none, Bool.false_eq_true, if_false]

theorem registerR_success_mdl (obj : PyObj) (p0 : Option String) (r r' : Registry)
    (h : registerR obj p0 r = (r', none)) :
    ∃ M, obj = PyObj.mdl M ∧ dlookup r.plugins (pyLower M.name) = none := by
  cases obj with
  | nonModel d => simp [registerR, registerModel] at h
  | mdl M =>
    refine ⟨M, rfl, ?_⟩
    cases hfresh : dlookup r.plugins (pyLower M.name) with
    | none => rfl
    | some rec0 =>
      have : (dlookup r.plugins (pyLower M.name)).isSome = true := by
        rw [hfresh]; rfl
      simp [registerR, registerModel, this] at h

theorem registerR_plugins_shape (M : PModel) (p0 : Option String) (r r' : Registry)
    (h : registerR (PyObj.mdl M) p0 r = (r', none)) :
    ∃ rec0, r'.plugins = dinsert r.plugins (pyLower M.name) rec0 := by
  have hfresh : dlookup r.plugins (pyLower M.name) = none := by
    obtain ⟨M', hM, hf⟩ := registerR_success_mdl _ _ _ _ h
    rw [← PyObj.mdl.inj hM] at hf
    exact hf
  rw [registerR, registerModel_ok_shape M p0 true r hfresh] at h
  simp only [if_true] at h
  have := congrArg Prod.fst h
  simp only at this
  rw [← this]
  exact ⟨_, by rw [notifyChange_plugins, rebuildR_plugins]⟩

theorem registerR_fields_shape (M : PModel) (p0 : Option String) (r r' : Registry)
    (h : registerR (PyObj.mdl M) p0 r = (r', none)) :
    ∃ np prio, r'.fields = (addFields M np (pyLower M.name) prio
      { fields := r.fields, collisions := r.collisions, name_map := [] }).fields := by
  have hfresh : dlookup r.plugins (pyLower M.name) = none := by
    obtain ⟨M', hM, hf⟩ := registerR_success_mdl _ _ _ _ h
    rw [← PyObj.mdl.inj hM] at hf
    exact hf
  rw [registerR, registerModel_ok_shape M p0 true r hfresh] at h
  simp only [if_true] at h
  have := congrArg Prod.fst h
  simp only at this
  rw [← this]
  exact ⟨_, _, by rw [notifyChange_fields, rebuildR_fields]⟩

theorem registerR_preserves_NoF (F M : PModel) (p0 : Option String) (r r' : Registry)
    (hwM : wfModel M) (hwF : wfModel F)
    (hid : ¬ pyLower M.name = pyLower F.name)
    (h : registerR (PyObj.mdl M) p0 r = (r', none)) (hno : NoF F r) : NoF F r' := by
  obtain ⟨np, prio, hfields⟩ := registerR_fields_shape M p0 r r' h
  intro q hq
  rw [hfields]
  simp only [addFields]
  rw [foldl_addOneField_preserves]
  · exact hno q hq
  · intro fld _
    exact mkey_ne_fkey M F np fld.1 q.1 hwM.1 hwF.1 (hwF.2 q hq) hid

theorem registerR_preserves_InvF (F M : PModel) (p0 : Option String) (r r' : Registry)
    (hwM : wfModel M) (hwF : wfModel F)
    (hid : ¬ pyLower M.name = pyLower F.name)
    (h : registerR (PyObj.mdl M) p0 r = (r', none)) (hinv : InvF F r) : InvF F r' := by
  obtain ⟨np, prio, hfields⟩ := registerR_fields_shape M p0 r r' h
  obtain ⟨rec0, hplugins⟩ := registerR_plugins_shape M p0 r r' h
  constructor
  · intro q hq
    rw [hfields]
    simp only [addFields]
    rw [foldl_addOneField_preserves]
    · exact hinv.1 q hq
    · intro fld _
      exact mkey_ne_fkey M F np fld.1 q.1 hwM.1 hwF.1 (hwF.2 q hq) hid
  · rw [hplugins]
    rw [dlookup_dinsert_ne _ _ _ _ (fun he => hid he.symm)]
    exact hinv.2

theorem registerR_establishes_InvF (F : PModel) (r r' : Registry)
    (hwF : wfModel F)
    (hdist : (F.model_fields.map fun q => pyLower q.1).Nodup)
    (h : registerR (PyObj.mdl F) none r = (r', none)) (hno : NoF F r) : InvF F r' := by
  have hfresh : dlookup r.plugins (pyLower F.name) = none := by
    obtain ⟨M', hM, hf⟩ := registerR_success_mdl _ _ _ _ h
    rw [← PyObj.mdl.inj hM] at hf
    exact hf
  rw [registerR, registerModel_ok_none F true r hfresh] at h
  simp only [if_true] at h
  have hr' := congrArg Prod.fst h
  simp only at hr'
  rw [← hr']
  have hnm : (addFields F none (pyLower F.name) 1
      { fields := r.fields, collisions := r.collisions, name_map := [] }).name_map =
      F.model_fields.map fun q => (q.1, buildTransformedName none F.name q.1) := by
    simp only [addFields]
    rw [addFields_name_map_eq]
    · simp
    · intro q _
      rfl
    · refine List.Nodup.of_map pyLower ?_
      rw [List.map_map]
      exact hdist
  constructor
  · intro q hq
    rw [notifyChange_fields, rebuildR_fields]
    simp only
    simp only [addFields]
    exact addFields_establish_fields F.name (pyLower F.name) 1 hwF.1 F.model_fields
      _ hdist (fun q' hq' => hno q' hq') q hq
  · rw [notifyChange_plugins, rebuildR_plugins]
    simp only
    rw [hnm]
    exact dlookup_dinsert_self _ _ _

theorem runRegs_append (r : Registry) (l1 l2 : List (PyObj × Option String))
    (r'' : Registry) (h : runRegs r (l1 ++ l2) = (r'', none)) :
    ∃ r1, runRegs r l1 = (r1, none) ∧ runRegs r1 l2 = (r'', none) := by
  induction l1 generalizing r with
  | nil => exact ⟨r, rfl, h⟩
  | cons e tl ih =>
    obtain ⟨obj, p⟩ := e
    simp only [List.cons_append, runRegs] at h ⊢
    cases hstep : registerR obj p r with
    | mk rA err =>
      cases err with
      | none =>
        rw [hstep] at h
        simp only at h
        obtain ⟨r1, h1, h2⟩ := ih rA h
        simp only
        exact ⟨r1, h1, h2⟩
      | some e0 =>
        rw [hstep] at h
        simp only at h
        cases (Prod.mk.injEq _ _ _ _).mp h |>.2

theorem runRegs_mono (l : List (PyObj × Option String)) :
    ∀ (r r'' : Registry), runRegs r l = (r'', none) →
    ∀ k, (dlookup r.plugins k).isSome = true → (dlookup r''.plugins k).isSome = true := by
  induction l with
  | nil =>
    intro r r'' h k hk
    rw [(Prod.mk.injEq _ _ _ _).mp h |>.1] at hk
    exact hk
  | cons e tl ih =>
    intro r r'' h k hk
    obtain ⟨obj, p⟩ := e
    simp only [runRegs] at h
    cases hstep : registerR obj p r with
    | mk rA err =>
      cases err with
      | none =>
        rw [hstep] at h
        simp only at h
        apply ih rA r'' h k
        obtain ⟨M, hM, _⟩ := registerR_success_mdl obj p r rA hstep
        subst hM
        obtain ⟨rec0, hplug⟩ := registerR_plugins_shape M p r rA hstep
        rw [hplug, dlookup_dinsert]
        by_cases hkk : k = pyLower M.name
        · rw [if_pos hkk]; rfl
        · rw [if_neg hkk]; exact hk
      | some e0 =>
        rw [hstep] at h
        simp only at h
        cases (Prod.mk.injEq _ _ _ _).mp h |>.2

theorem runRegs_NoF (F : PModel) (hwF : wfModel F)
    (l : List (PyObj × Option String)) :
    ∀ (r r'' : Registry), (∀ e ∈ l, wfEntry e) → runRegs r l = (r'', none) →
    dlookup r''.plugins (pyLower F.name) = none → NoF F r → NoF F r'' := by
  induction l with
  | nil =>
    intro r r'' _ h _ hno
    rw [← (Prod.mk.injEq _ _ _ _).mp h |>.1]
    exact hno
  | cons e tl ih =>
    intro r r'' hwf h hnone hno
    obtain ⟨obj, p⟩ := e
    simp only [runRegs] at h
    cases hstep : registerR obj p r with
    | mk rA err =>
      cases err with
      | none =>
        rw [hstep] at h
        simp only at h
        obtain ⟨M, hM, _⟩ := registerR_success_mdl obj p r rA hstep
        subst hM
        have hwM : wfModel M := hwf (PyObj.mdl M, p) (List.mem_cons_self _ _) M rfl
        -- M's id persists to r'', where F's id is absent, so they differ
        have hMin : (dlookup rA.plugins (pyLower M.name)).isSome = true := by
          obtain ⟨rec0, hplug⟩ := registerR_plugins_shape M p r rA hstep
          rw [hplug, dlookup_dinsert_self]
          rfl
        have hMfin := runRegs_mono tl rA r'' h (pyLower M.name) hMin
        have hid : ¬ pyLower M.name = pyLower F.name := by
          intro he
          rw [he, hnone] at hMfin
          cases hMfin
        exact ih rA r'' (fun e' he' => hwf e' (List.mem_cons_of_mem _ he')) h hnone
          (registerR_preserves_NoF F M p r rA hwM hwF hid hstep hno)
      | some e0 =>
        rw [hstep] at h
        simp only at h
        cases (Prod.mk.injEq _ _ _ _).mp h |>.2

theorem runRegs_InvF (F : PModel) (hwF : wfModel F)
    (l : List (PyObj × Option String)) :
    ∀ (r r'' : Registry), (∀ e ∈ l, wfEntry e) → runRegs r l = (r'', none) →
    InvF F r → InvF F r'' := by
  induction l with
  | nil =>
    intro r r'' _ h hinv
    rw [← (Prod.mk.injEq _ _ _ _).mp h |>.1]
    exact hinv
  | cons e tl ih =>
    intro r r'' hwf h hinv
    obtain ⟨obj, p⟩ := e
    simp only [runRegs] at h
    cases hstep : registerR obj p r with
    | mk rA err =>
      cases err with
      | none =>
        rw [hstep] at h
        simp only at h
        obtain ⟨M, hM, hfreshM⟩ := registerR_success_mdl obj p r rA hstep
        subst hM
        have hwM : wfModel M := hwf (PyObj.mdl M, p) (List.mem_cons_self _ _) M rfl
        have hid : ¬ pyLower M.name = pyLower F.name := by
          intro he
          rw [he, hinv.2] at hfreshM
          cases hfreshM
        exact ih rA r'' (fun e' he' => hwf e' (List.mem_cons_of_mem _ he')) h
          (registerR_preserves_InvF F M p r rA hwM hwF hid hstep hinv)
      | some e0 =>
        rw [hstep] at h
        simp only at h
        cases (Prod.mk.injEq _ _ _ _).mp h |>.2

theorem rebuildR_clean (rr : Registry) (h : rr.dirty = true) : ModelClean (rebuildR rr) := by
  unfold rebuildR
  rw [h]
  simp only [Bool.true_eq_false, if_false]
  by_cases hf : rr.fields = []
  · rw [if_pos hf]
    exact ⟨rfl, by simp [hf]⟩
  · rw [if_neg hf]
    exact ⟨rfl, by simp [hf]⟩

theorem registerR_ModelClean (obj : PyObj) (p0 : Option String) (r r' : Registry)
    (h : registerR obj p0 r = (r', none)) : ModelClean r' := by
  obtain ⟨M, hM, hfresh⟩ := registerR_success_mdl obj p0 r r' h
  subst hM
  rw [registerR, registerModel_ok_shape M p0 true r hfresh] at h
  simp only [if_true] at h
  have hr' := congrArg Prod.fst h
  simp only at hr'
  rw [← hr']
  have hstep : ∀ rr : Registry, ModelClean rr → ModelClean (notifyChange rr) :=
    fun rr hc => ⟨hc.1, hc.2⟩
  exact hstep _ (rebuildR_clean _ rfl)

theorem runRegs_ModelClean (l : List (PyObj × Option String)) :
    ∀ (r r'' : Registry), runRegs r l = (r'', none) → ModelClean r → ModelClean r'' := by
  induction l with
  | nil =>
    intro r r'' h hc
    rw [← (Prod.mk.injEq _ _ _ _).mp h |>.1]
    exact hc
  | cons e tl ih =>
    intro r r'' h hc
    obtain ⟨obj, p⟩ := e
    simp only [runRegs] at h
    cases hstep : registerR obj p r with
    | mk rA err =>
      cases err with
      | none =>
        rw [hstep] at h
        simp only at h
        exact ih rA r'' h (registerR_ModelClean obj p r rA hstep)
      | some e0 =>
        rw [hstep] at h
        simp only at h
        cases (Prod.mk.injEq _ _ _ _).mp h |>.2

theorem mkInstance_empty_kwargs (md : List (String × (String × FieldInfo))) :
    ∀ (inst : List (String × PyVal)), mkInstance md [] = Except.ok inst →
    inst = md.map fun p => (p.1, p.2.2.default.getD PyVal.vnone) := by
  induction md with
  | nil =>
    intro inst h
    simp only [mkInstance] at h
    cases h
    rfl
  | cons hd tl ih =>
    intro inst h
    obtain ⟨k, a, fi⟩ := hd
    simp only [mkInstance, dlookup] at h
    cases hd0 : fi.default with
    | none =>
      rw [hd0] at h
      cases h
    | some d =>
      rw [hd0] at h
      cases hrec : mkInstance tl [] with
      | error e => rw [hrec] at h; cases h
      | ok tl' =>
        rw [hrec] at h
        simp only [Except.map] at h
        cases h
        rw [ih tl' hrec]
        simp [hd0]

theorem unmap_fold_spec (modelName : String) (inst : List (String × PyVal))
    (l : List (String × FieldInfo)) :
    ∀ (acc : List (String × PyVal)),
    (∀ q ∈ l, dlookup inst (buildTransformedName none modelName q.1) =
      some (q.2.default.getD PyVal.vnone)) →
    ((l.map fun q => (q.1, buildTransformedName none modelName q.1)).foldl
      (fun acc p =>
        match dlookup inst p.2 with
        | some v => acc ++ [(p.1, v)]
        | none => acc) acc) =
    acc ++ l.map fun q => (q.1, q.2.default.getD PyVal.vnone) := by
  induction l with
  | nil => intro acc _; simp
  | cons hd tl ih =>
    intro acc hv
    simp only [List.map_cons, List.foldl_cons]
    rw [hv hd (List.mem_cons_self hd tl)]
    simp only
    rw [ih _ (fun q hq => hv q (List.mem_cons_of_mem hd hq))]
    simp

/-- C2, amended: for any fragment schema F with identifier-like class and
field names whose field names stay pairwise distinct after lowercasing,
registered without prefix among any sequence of well-formed registrations,
`unmap(instance(), F)` returns exactly the mapping from F's own field names to
F's own default field values. -/
theorem C2_amended_roundtrip (pre post : List (PyObj × Option String)) (F : PModel)
    (r'' : Registry) (inst : List (String × PyVal))
    (hwfF : wfModel F)
    (hdist : (F.model_fields.map fun q => pyLower q.1).Nodup)
    (hwfpre : ∀ e ∈ pre, wfEntry e)
    (hwfpost : ∀ e ∈ post, wfEntry e)
    (hrun : runRegs freshRegistry (pre ++ (PyObj.mdl F, none) :: post) = (r'', none))
    (hinst : instanceR r'' [] = Except.ok inst) :
    unmapR r'' inst (PyObj.mdl F) =
      Except.ok (F.model_fields.map fun q => (q.1, q.2.default.getD PyVal.vnone)) := by
  obtain ⟨r1, hpre, hrest⟩ := runRegs_append freshRegistry pre _ r'' hrun
  have hrest' : ∃ r2, registerR (PyObj.mdl F) none r1 = (r2, none)
      ∧ runRegs r2 post = (r'', none) := by
    simp only [runRegs] at hrest
    cases hstep : registerR (PyObj.mdl F) none r1 with
    | mk rA err =>
      cases err with
      | none =>
        rw [hstep] at hrest
        simp only at hrest
        exact ⟨rA, rfl, hrest⟩
      | some e0 =>
        rw [hstep] at hrest
        simp only at hrest
        cases (Prod.mk.injEq _ _ _ _).mp hrest |>.2
  obtain ⟨r2, hFreg, hpost⟩ := hrest'
  have hnoF1 : NoF F r1 := by
    apply runRegs_NoF F hwfF pre freshRegistry r1 hwfpre hpre
    · obtain ⟨M', hM, hf⟩ := registerR_success_mdl _ _ _ _ hFreg
      rw [← PyObj.mdl.inj hM] at hf
      exact hf
    · intro q hq
      rfl
  have hinv2 : InvF F r2 := registerR_establishes_InvF F r1 r2 hwfF hdist hFreg hnoF1
  have hinv : InvF F r'' := runRegs_InvF F hwfF post r2 r'' hwfpost hpost hinv2
  have hclean : ModelClean r'' :=
    runRegs_ModelClean _ freshRegistry r'' hrun ⟨rfl, rfl⟩
  have hfne : ¬ r''.fields = [] := by
    intro hf
    have hm : r''.model = none := by rw [hclean.2, if_pos hf]
    simp only [instanceR, schemaR, hm] at hinst
    cases hinst
  have hmd : r''.model =
      some (r''.fields.map fun p => (p.1, (p.2.annot, p.2.field_info))) := by
    rw [hclean.2, if_neg hfne]
  have hmk : mkInstance (r''.fields.map fun p => (p.1, (p.2.annot, p.2.field_info))) []
      = Except.ok inst := by
    simp only [instanceR, schemaR, hmd] at hinst
    exact hinst
  have hinstval := mkInstance_empty_kwargs _ inst hmk
  have hvals : ∀ q ∈ F.model_fields,
      dlookup inst (buildTransformedName none F.name q.1) =
        some (q.2.default.getD PyVal.vnone) := by
    intro q hq
    rw [hinstval, List.map_map]
    show dlookup (r''.fields.map fun p =>
      (p.1, p.2.field_info.default.getD PyVal.vnone)) _ = _
    rw [dlookup_map_val (fun _ (e : FieldEntry) => e.field_info.default.getD PyVal.vnone)]
    rw [hinv.1 q hq]
    rfl
  simp only [unmapR, hinv.2]
  rw [unmap_fold_spec F.name inst F.model_fields [] hvals]
  simp



instance exceptDecEq {e a : Type} [DecidableEq e] [DecidableEq a] : DecidableEq (Except e a)
  | .ok x, .ok y =>
      if h : x = y then .isTrue (by rw [h]) else .isFalse (fun hc => h (Except.ok.inj hc))
  | .ok _, .error _ => .isFalse (fun hc => Except.noConfusion hc)
  | .error _, .ok _ => .isFalse (fun hc => Except.noConfusion hc)
  | .error x, .error y =>
      if h : x = y then .isTrue (by rw [h]) else .isFalse (fun hc => h (Except.error.inj hc))

/-- A fragment with two field names differing only in case: both compose to
the single name `m:a`. -/
def exCaseClash : PModel := { name := "M", model_fields := [("A", exFi 1), ("a", exFi 2)] }

/-- C2, counterexample: for `exCaseClash`, registered without prefix on a
fresh registry, `unmap(instance(), F)` yields `A ↦ 2, a ↦ 2` — not F's own
default values `A ↦ 1, a ↦ 2` — because the two fields collapse onto one
composed name and the later insertion wins. -/
theorem C2_counterexample :
    (registerR (PyObj.mdl exCaseClash) none freshRegistry).2 = none
    ∧ instanceR (registerR (PyObj.mdl exCaseClash) none freshRegistry).1 [] =
        Except.ok [("m:a", PyVal.vint 2)]
    ∧ unmapR (registerR (PyObj.mdl exCaseClash) none freshRegistry).1
        [("m:a", PyVal.vint 2)] (PyObj.mdl exCaseClash) =
        Except.ok [("A", PyVal.vint 2), ("a", PyVal.vint 2)]
    ∧ ¬ unmapR (registerR (PyObj.mdl exCaseClash) none freshRegistry).1
        [("m:a", PyVal.vint 2)] (PyObj.mdl exCaseClash) =
        Except.ok (exCaseClash.model_fields.map fun q =>
          (q.1, q.2.default.getD PyVal.vnone)) :=
  ⟨by decide, by decide, by decide, by decide⟩

/-- A well-formed two-field fragment used by the C2 witness. -/
def exAuth : PModel :=
  { name := "Auth",
    model_fields :=
      [("name", { annot := "str", default := some (PyVal.vstr "guest") }),
       ("level", { annot := "int", default := some (PyVal.vint 1) })] }

/-- The registry after registering `exAuth` without prefix on a fresh
registry. -/
def exRegAuth : Registry := (runRegs freshRegistry [(PyObj.mdl exAuth, none)]).1

/-- Witness for `C2_amended_roundtrip`: the round trip on `exAuth`. -/
theorem C2_amended_roundtrip_witness :
    wfModel exAuth
    ∧ (exAuth.model_fields.map fun q => pyLower q.1).Nodup
    ∧ runRegs freshRegistry ([] ++ (PyObj.mdl exAuth, none) :: []) = (exRegAuth, none)
    ∧ instanceR exRegAuth [] =
        Except.ok [("auth:name", PyVal.vstr "guest"), ("auth:level", PyVal.vint 1)]
    ∧ unmapR exRegAuth
        [("auth:name", PyVal.vstr "guest"), ("auth:level", PyVal.vint 1)]
        (PyObj.mdl exAuth) =
      Except.ok (exAuth.model_fields.map fun q => (q.1, q.2.default.getD PyVal.vnone)) :=
  ⟨⟨by unfold identLike; decide, by unfold identLike; decide⟩,
    by decide, by decide, by decide,
    C2_amended_roundtrip [] [] exAuth exRegAuth
      [("auth:name", PyVal.vstr "guest"), ("auth:level", PyVal.vint 1)]
      ⟨by unfold identLike; decide, by unfold identLike; decide⟩
      (by decide)
      (fun e he => absurd he (List.not_mem_nil e))
      (fun e he => absurd he (List.not_mem_nil e))
      (by decide) (by decide)⟩
